import Mathlib

/-!
# Verification of `libadb/reader.c` (kernelflinger unified byte-stream reader)

Shallow embedding of the reader core: the RAM adapter (memory-map snapshot,
sparse-image chunk plan, streaming state machine), the partition adapter's
argument validation, and the generic `reader_read` dispatcher, together with
theorems checking the specification's claims against this embedding.

Machine integers are modelled as `Nat` with explicit reduction modulo `2^64`
(UINT64 / UINTN / EFI_PHYSICAL_ADDRESS) or `2^32` (the 32-bit sparse header
fields) wherever the C arithmetic can wrap.  C unsigned subtraction `a - b`
on 64-bit operands is `sub64 a b = (a + 2^64 - b) % 2^64`, which agrees with
the C result for all operands below `2^64`.

Constants that live in headers outside the provided sources are modelled from
the spec: the sparse wire format (`sizeof` of the two headers, the chunk type
values, the magic) is taken from the spec's bit-exact wire-format table, the
page size from the spec's glossary (`P = 4096`), and `EfiConventionalMemory`
is an opaque firmware type tag whose concrete value only matters up to
(in)equality.
-/

namespace Reader

/-- `2^64`, the modulus of UINT64 / UINTN arithmetic. -/
def W64 : Nat := 2 ^ 64

/-- `2^32`, the modulus of UINT32 arithmetic. -/
def W32 : Nat := 2 ^ 32

/-- Reduction of a value into a 64-bit field / 64-bit arithmetic result. -/
def w64 (n : Nat) : Nat := n % W64

/-- Reduction of a value into a 32-bit field. -/
def w32 (n : Nat) : Nat := n % W32

/-- C 64-bit unsigned subtraction, faithful including underflow wrap-around
(for operands `< 2^64`). -/
def sub64 (a b : Nat) : Nat := (a + W64 - b) % W64

/-- Modelled from the spec: the page size `P` (glossary: "typically 4096";
`EFI_PAGE_SIZE` comes from the EFI headers, which are not in the sources). -/
def EFI_PAGE_SIZE : Nat := 4096

/-- `#define MAX_MEMORY_REGION_NB 256` (reader.c). -/
def MAX_MEMORY_REGION_NB : Nat := 256

/-- Modelled from the spec: sparse chunk type `RAW = 0xCAC1`
(`sparse_format.h` is not in the sources; value from the spec's wire table). -/
def CHUNK_TYPE_RAW : Nat := 0xCAC1

/-- Modelled from the spec: sparse chunk type `DONT_CARE = 0xCAC3`. -/
def CHUNK_TYPE_DONT_CARE : Nat := 0xCAC3

/-- Modelled from the spec: the fixed sparse magic (value immaterial). -/
def SPARSE_HEADER_MAGIC : Nat := 0xed26ff3a

/-- Modelled from the spec: the firmware descriptor type designating
conventional memory.  Only equality with this tag matters. -/
def EfiConventionalMemory : Nat := 7

/-- Modelled from the spec: `sizeof(struct sparse_header)` = 28 (the spec's
wire table: `file_hdr_sz` = 28). -/
def sizeof_sparse_header : Nat := 28

/-- Modelled from the spec: `sizeof(struct chunk_header)` = 12 (the spec's
wire table: `chunk_hdr_sz` = 12). -/
def sizeof_chunk_header : Nat := 12

/-- The EFI status values used by reader.c. -/
inductive EFI_STATUS where
  | EFI_SUCCESS
  | EFI_INVALID_PARAMETER
  | EFI_UNSUPPORTED
  | EFI_OUT_OF_RESOURCES
  deriving DecidableEq, Repr

export EFI_STATUS (EFI_SUCCESS EFI_INVALID_PARAMETER EFI_UNSUPPORTED EFI_OUT_OF_RESOURCES)

/-- `EFI_ERROR(x)`: every status other than `EFI_SUCCESS` is an error. -/
def EFI_ERROR (s : EFI_STATUS) : Bool := s ≠ EFI_SUCCESS

/-- One firmware memory descriptor: the fields reader.c reads
(`Type`, `PhysicalStart`, `NumberOfPages`).  `Typ` models the C field `Type`
(a Lean keyword). -/
structure EFI_MEMORY_DESCRIPTOR where
  Typ : Nat
  PhysicalStart : Nat
  NumberOfPages : Nat
  deriving DecidableEq, Repr

/-- `struct chunk_header` (fields per the spec's wire table: `chunk_sz` and
`total_sz` are 32-bit). -/
structure chunk_header where
  chunk_type : Nat
  chunk_sz : Nat
  total_sz : Nat
  deriving DecidableEq, Repr

/-- A zeroed chunk header (the static `chunks` array is zero-initialised). -/
def zero_chunk : chunk_header := ⟨0, 0, 0⟩

/-- `struct sparse_header` (32-bit `total_blks` / `total_chunks` per the
spec's wire table). -/
structure sparse_header where
  magic : Nat
  major_version : Nat
  minor_version : Nat
  file_hdr_sz : Nat
  chunk_hdr_sz : Nat
  blk_sz : Nat
  total_blks : Nat
  total_chunks : Nat
  image_checksum : Nat
  deriving DecidableEq, Repr

def zero_sparse_header : sparse_header := ⟨0, 0, 0, 0, 0, 0, 0, 0, 0⟩

/-- `struct ram_priv`: the process-wide static private region of the RAM
adapter.  The fixed `chunks[MAX_MEMORY_REGION_NB]` array is modelled as the
list of its first `chunk_nb` entries (the rest stay zero); `gsizes` is a
ghost field recording, for each added chunk, the pair
`(chunk type, exact byte size)` before any 32-bit truncation — it affects no
computed field and exists only so that specifications can speak about the
exact planned sizes. -/
structure ram_priv where
  is_in_used : Bool
  memmap : List EFI_MEMORY_DESCRIPTOR
  start : Nat
  end_ : Nat
  cur : Nat
  cur_end : Nat
  chunk_nb : Nat
  cur_chunk : Nat
  sheader : sparse_header
  chunks : List chunk_header
  gsizes : List (Nat × Nat)
  deriving DecidableEq, Repr

def zero_ram_priv : ram_priv :=
  ⟨false, [], 0, 0, 0, 0, 0, 0, zero_sparse_header, [], []⟩

/-- `reader_ctx_t`: cursor and total length (the adapter handle and private
pointer are carried separately in this embedding). -/
structure reader_ctx_t where
  cur : Nat
  len : Nat
  deriving DecidableEq, Repr

/-! ## sort_memory_map (reader.c lines 64-86)

The C bubble-sorts the descriptor array in place by `PhysicalStart`
(ascending), swapping only on strict `>`, until a pass makes no swap.  A
single pass is `bubble_pass`; iterating it `length` times computes the same
final list: bubble sort is a stable sort, and both the C loop and this
functional version are stable sorts by `PhysicalStart`, whose output sequence
is uniquely determined by the input. -/

/-- One bubble pass, carrying the element currently in hand: compares it with
the next element and swaps on strict `>`, exactly the C inner loop. -/
def bubble_step (a : EFI_MEMORY_DESCRIPTOR) :
    List EFI_MEMORY_DESCRIPTOR → List EFI_MEMORY_DESCRIPTOR
  | [] => [a]
  | b :: t =>
    if a.PhysicalStart > b.PhysicalStart then b :: bubble_step a t
    else a :: bubble_step b t

def bubble_pass : List EFI_MEMORY_DESCRIPTOR → List EFI_MEMORY_DESCRIPTOR
  | [] => []
  | a :: t => bubble_step a t

def sort_memory_map (entries : List EFI_MEMORY_DESCRIPTOR) :
    List EFI_MEMORY_DESCRIPTOR :=
  bubble_pass^[entries.length] entries

/-! ## ram_add_chunk (reader.c lines 88-117) -/

/-- `ram_add_chunk`: validate the size, append a chunk header to the plan and
update the stream length and sparse-header totals.  Returns
`(status, ctx, priv)`. -/
def ram_add_chunk (ctx : reader_ctx_t) (priv : ram_priv) (ty size : Nat) :
    EFI_STATUS × reader_ctx_t × ram_priv :=
  if size % EFI_PAGE_SIZE ≠ 0 then (EFI_INVALID_PARAMETER, ctx, priv)
  else if priv.chunk_nb = MAX_MEMORY_REGION_NB then (EFI_OUT_OF_RESOURCES, ctx, priv)
  else
    let csz := w32 (size / EFI_PAGE_SIZE)
    let ctx1 : reader_ctx_t := { ctx with len := w64 (ctx.len + sizeof_chunk_header) }
    let tsz := if ty = CHUNK_TYPE_RAW then w32 (sizeof_chunk_header + size)
               else w32 sizeof_chunk_header
    let ctx2 : reader_ctx_t :=
      if ty = CHUNK_TYPE_RAW then { ctx1 with len := w64 (ctx1.len + size) } else ctx1
    let c : chunk_header := { chunk_type := ty, chunk_sz := csz, total_sz := tsz }
    let priv' : ram_priv := { priv with
      chunk_nb := priv.chunk_nb + 1,
      chunks := priv.chunks ++ [c],
      gsizes := priv.gsizes ++ [(ty, size)],
      sheader := { priv.sheader with
        total_chunks := w32 (priv.sheader.total_chunks + 1),
        total_blks := w32 (priv.sheader.total_blks + csz) } }
    (EFI_SUCCESS, ctx2, priv')

/-! ## ram_build_chunks (reader.c lines 119-203)

The walk over the sorted descriptors is split into a per-entry step
(`ram_build_step`, with the descriptor-chunk tail `ram_build_desc` shared by
the hole and no-hole paths, exactly as the C falls through) and a loop
(`ram_build_loop`).  `cont = true` corresponds to reaching the `next:` label
(with the updated `prev_end`); `cont = false` to `break` (status
`EFI_SUCCESS`) or to `goto err` (an error status; the overlap branch reaches
`err` with `ret == EFI_SUCCESS`, which `err` turns into
`EFI_INVALID_PARAMETER`, so the step returns that status directly). -/

structure step_result where
  status : EFI_STATUS
  ctx : reader_ctx_t
  priv : ram_priv
  prev_end : Nat
  cont : Bool
  deriving DecidableEq, Repr

/-- The hole chunk length (reader.c lines 147-153): the gap from the previous
region end to the descriptor start, clipped when the window start or the
window end lies in the hole. -/
def hole_length (priv : ram_priv) (prev_end : Nat)
    (entry : EFI_MEMORY_DESCRIPTOR) : Nat :=
  let length := sub64 entry.PhysicalStart prev_end
  let length := if priv.start > prev_end ∧ priv.start < entry.PhysicalStart
                then sub64 length (sub64 priv.start prev_end) else length
  if priv.end_ ≠ 0 ∧ entry.PhysicalStart > priv.end_
  then sub64 length (sub64 entry.PhysicalStart priv.end_) else length

/-- The descriptor chunk length (reader.c lines 163-168): the descriptor
extent, clipped when the window start or the window end lies inside it. -/
def desc_length (priv : ram_priv) (entry : EFI_MEMORY_DESCRIPTOR)
    (entry_len entry_end : Nat) : Nat :=
  let length := entry_len
  let length := if priv.start > entry.PhysicalStart ∧ priv.start < entry_end
                then sub64 length (sub64 priv.start entry.PhysicalStart) else length
  if priv.end_ ≠ 0 ∧ priv.end_ < entry_end
  then sub64 length (sub64 entry_end priv.end_) else length

/-- The descriptor chunk type (reader.c line 170). -/
def desc_type (entry : EFI_MEMORY_DESCRIPTOR) : Nat :=
  if entry.Typ = EfiConventionalMemory then CHUNK_TYPE_RAW
  else CHUNK_TYPE_DONT_CARE

/-- The descriptor-chunk part of one loop iteration (reader.c lines 163-179):
clip the descriptor to the window, emit its chunk, stop if the window end was
reached. -/
def ram_build_desc (ctx : reader_ctx_t) (priv : ram_priv) (prev_end : Nat)
    (entry : EFI_MEMORY_DESCRIPTOR) (entry_len entry_end : Nat) : step_result :=
  match ram_add_chunk ctx priv (desc_type entry)
      (desc_length priv entry entry_len entry_end) with
  | (st, ctx', priv') =>
    if EFI_ERROR st then ⟨st, ctx', priv', prev_end, false⟩
    else if priv'.end_ ≠ 0 ∧ priv'.end_ ≤ entry_end then
      ⟨EFI_SUCCESS, ctx', priv', prev_end, false⟩
    else ⟨EFI_SUCCESS, ctx', priv', entry_end, true⟩

/-- One iteration of the `ram_build_chunks` walk (reader.c lines 132-180):
skip descriptors entirely below the window, handle a hole before the
descriptor (overlap detection, hole chunk, stop when the window end lies in
the hole), then fall into the descriptor chunk. -/
def ram_build_step (ctx : reader_ctx_t) (priv : ram_priv) (prev_end : Nat)
    (entry : EFI_MEMORY_DESCRIPTOR) : step_result :=
  let entry_len := w64 (entry.NumberOfPages * EFI_PAGE_SIZE)
  let entry_end := w64 (entry.PhysicalStart + entry_len)
  if priv.start ≥ entry_end then ⟨EFI_SUCCESS, ctx, priv, entry_end, true⟩
  else if prev_end ≠ entry.PhysicalStart then
    if prev_end > entry.PhysicalStart then
      ⟨EFI_INVALID_PARAMETER, ctx, priv, prev_end, false⟩
    else
      match ram_add_chunk ctx priv CHUNK_TYPE_DONT_CARE
          (hole_length priv prev_end entry) with
      | (st, ctx', priv') =>
        if EFI_ERROR st then ⟨st, ctx', priv', prev_end, false⟩
        else if priv'.end_ ≠ 0 ∧ priv'.end_ < entry.PhysicalStart then
          ⟨EFI_SUCCESS, ctx', priv', prev_end, false⟩
        else ram_build_desc ctx' priv' prev_end entry entry_len entry_end
  else ram_build_desc ctx priv prev_end entry entry_len entry_end

structure build_result where
  status : EFI_STATUS
  ctx : reader_ctx_t
  priv : ram_priv
  prev_end : Nat
  completed : Bool
  deriving DecidableEq, Repr

/-- The `for` loop of `ram_build_chunks`.  `completed = true` iff the loop
ran off the end of the descriptor list (`i == nr_entries`). -/
def ram_build_loop (ctx : reader_ctx_t) (priv : ram_priv) (prev_end : Nat) :
    List EFI_MEMORY_DESCRIPTOR → build_result
  | [] => ⟨EFI_SUCCESS, ctx, priv, prev_end, true⟩
  | entry :: rest =>
    let s := ram_build_step ctx priv prev_end entry
    if s.cont then ram_build_loop s.ctx s.priv s.prev_end rest
    else ⟨s.status, s.ctx, s.priv, s.prev_end, false⟩

/-- `ram_build_chunks` (reader.c lines 119-203).  The returned `Bool` records
whether `FreePool(priv->chunks)` was executed (the `err:` label frees the
chunk array, which is a member of the static region; the post-loop
`EFI_INVALID_PARAMETER` returns do not pass through `err:`). -/
def ram_build_chunks (ctx : reader_ctx_t) (priv : ram_priv)
    (entries : List EFI_MEMORY_DESCRIPTOR) :
    EFI_STATUS × reader_ctx_t × ram_priv × Bool :=
  let ctx0 : reader_ctx_t := { ctx with cur := 0, len := 0 }
  let r := ram_build_loop ctx0 priv 0 entries
  if EFI_ERROR r.status then (r.status, r.ctx, r.priv, true)
  else if r.priv.end_ ≠ 0 ∧ r.completed then
    (EFI_INVALID_PARAMETER, r.ctx, r.priv, false)
  else if r.ctx.len = 0 then (EFI_INVALID_PARAMETER, r.ctx, r.priv, false)
  else (EFI_SUCCESS, r.ctx,
        { r.priv with end_ := if r.priv.end_ = 0 then r.prev_end else r.priv.end_ },
        false)

/-! ## ram_open (reader.c lines 205-276)

The two optional arguments arrive as already-parsed hex values (`strtoul` is
libc, outside the sources; values are `< 2^64`).  The firmware call
`BS->GetMemoryMap` is modelled from the spec as succeeding and filling the
fixed buffer with the given descriptor list. -/

/-- The private state after `memset(priv, 0, ...)`, `priv->is_in_used = TRUE`
and the `argv` parsing (reader.c lines 221-238): window start (default 0) and
`end = start + length` (64-bit), with `end == 0` as the to-end-of-map
sentinel when no length argument was given. -/
def ram_open_parsed (args : List Nat) : ram_priv :=
  { zero_ram_priv with
    is_in_used := true,
    start := args.headD 0,
    end_ := if args.length = 2 then w64 (args.headD 0 + args.getD 1 0) else 0 }

/-- The private state just before `ram_build_chunks`: the parsed window plus
the initialised sparse header (reader.c lines 245-251) and the
snapshotted-and-sorted memory map (lines 253-262). -/
def ram_open_priv0 (args : List Nat)
    (memmap : List EFI_MEMORY_DESCRIPTOR) : ram_priv :=
  { ram_open_parsed args with
    sheader := { zero_sparse_header with
      magic := SPARSE_HEADER_MAGIC,
      major_version := 1,
      minor_version := 0,
      file_hdr_sz := sizeof_sparse_header,
      chunk_hdr_sz := sizeof_chunk_header,
      blk_sz := EFI_PAGE_SIZE },
    memmap := sort_memory_map memmap }

def ram_open (g : ram_priv) (args : List Nat)
    (memmap : List EFI_MEMORY_DESCRIPTOR) :
    EFI_STATUS × reader_ctx_t × ram_priv :=
  let ctx0 : reader_ctx_t := ⟨0, 0⟩
  if args.length > 2 then (EFI_INVALID_PARAMETER, ctx0, g)
  else if g.is_in_used then (EFI_UNSUPPORTED, ctx0, g)
  else
    let parsed := ram_open_parsed args
    if parsed.start % EFI_PAGE_SIZE ≠ 0 ∨ parsed.end_ % EFI_PAGE_SIZE ≠ 0 then
      (EFI_INVALID_PARAMETER, ctx0, { parsed with is_in_used := false })
    else
      let priv := ram_open_priv0 args memmap
      match ram_build_chunks ctx0 priv priv.memmap with
      | (st, ctx1, priv1, _) =>
        if EFI_ERROR st then (st, ctx1, { priv1 with is_in_used := false })
        else (EFI_SUCCESS, { ctx1 with len := w64 (ctx1.len + sizeof_sparse_header) },
              priv1)

/-! ## ram_read (reader.c lines 278-314) -/

/-- The buffer pointer a read returns: the private sparse header, a chunk
header of the plan, a physical address, an offset into the partition
adapter's bounce buffer (`priv->buf + i`), or an offset into the private
table (`ctx->private + off`, the acpi/efivar case); `undef` models the
pointer being left unassigned on the error returns. -/
inductive buf_ptr where
  | undef
  | sheader_ptr
  | chunk_ptr (i : Nat)
  | phys (addr : Nat)
  | part_buf (i : Nat)
  | priv_ptr (off : Nat)
  deriving DecidableEq, Repr

/-- `ram_read`: the three-state streaming machine.  Returns
`(status, buffer, length, priv)`; `ctx` is read but not modified. -/
def ram_read (ctx : reader_ctx_t) (priv : ram_priv) (len : Nat) :
    EFI_STATUS × buf_ptr × Nat × ram_priv :=
  if ctx.cur = 0 then
    if len < sizeof_sparse_header then (EFI_INVALID_PARAMETER, .undef, len, priv)
    else (EFI_SUCCESS, .sheader_ptr, sizeof_sparse_header,
          { priv with cur := priv.start, cur_end := priv.start })
  else if priv.cur = priv.cur_end then
    if priv.cur_chunk = priv.chunk_nb ∨ len < sizeof_chunk_header then
      (EFI_INVALID_PARAMETER, .undef, len, priv)
    else
      let chunk := priv.chunks.getD priv.cur_chunk zero_chunk
      let cur_end' := w64 (priv.cur + chunk.chunk_sz * EFI_PAGE_SIZE)
      let priv1 : ram_priv :=
        { priv with cur_chunk := priv.cur_chunk + 1, cur_end := cur_end' }
      let priv2 : ram_priv :=
        if chunk.chunk_type ≠ CHUNK_TYPE_RAW then { priv1 with cur := cur_end' }
        else priv1
      (EFI_SUCCESS, .chunk_ptr priv.cur_chunk, sizeof_chunk_header, priv2)
  else
    let n := min len (sub64 priv.cur_end priv.cur)
    (EFI_SUCCESS, .phys priv.cur, n, { priv with cur := w64 (priv.cur + n) })

/-- `ram_close` (reader.c lines 316-322).  The returned `Bool` records that
`FreePool(priv->chunks)` was executed. -/
def ram_close (priv : ram_priv) : ram_priv × Bool :=
  ({ priv with is_in_used := false }, true)

/-! ## part_open (reader.c lines 336-394)

`gpt_get_partition_by_label`, the block-io media and `AllocatePool` are
outside the sources; modelled from the spec: the resolved partition geometry
(`starting_lba`, `ending_lba`, the media block size) is passed in and the
label resolution and allocation succeed.  `opts` are the parsed hex values of
the optional `argv[1]` (offset) and `argv[2]` (length); `argc` counts the
label too. -/

structure gpt_partition_interface where
  starting_lba : Nat
  ending_lba : Nat
  block_size : Nat
  deriving DecidableEq, Repr

def part_open (gparti : gpt_partition_interface) (opts : List Nat) :
    EFI_STATUS × reader_ctx_t :=
  if opts.length + 1 > 3 then (EFI_INVALID_PARAMETER, ⟨0, 0⟩)
  else
    let length := w64 (sub64 (gparti.ending_lba + 1) gparti.starting_lba *
                       gparti.block_size)
    let ctx : reader_ctx_t := ⟨0, length⟩
    match opts with
    | [] => (EFI_SUCCESS, ctx)
    | off :: rest =>
      let ctx : reader_ctx_t := { ctx with cur := off }
      if ctx.cur ≥ length then (EFI_INVALID_PARAMETER, ctx)
      else
        match rest with
        | [] => (EFI_SUCCESS, ctx)
        | l :: _ =>
          let ctx : reader_ctx_t := { ctx with len := l }
          if ctx.len = 0 ∨ ctx.len > length ∨ ctx.cur ≥ sub64 length ctx.len then
            (EFI_INVALID_PARAMETER, ctx)
          else (EFI_SUCCESS, ctx)

/-! ## part_read (reader.c lines 396-422) -/

/-- `sizeof(priv->buf)`: the 10 MiB bounce buffer of the partition reader
(reader.c line 325). -/
def PART_READER_BUF_SIZE : Nat := 10 * 1024 * 1024

/-- The mutable fields of `struct part_priv` that `part_read` uses (the
resolved `gparti` and the buffer contents only feed the external `ReadDisk`
call). -/
structure part_priv where
  need_more_data : Bool
  buf_cur : Nat
  buf_len : Nat
  offset : Nat
  deriving DecidableEq, Repr

/-- The tail of `part_read` (reader.c lines 415-421): serve
`min(*len, buf_len - buf_cur)` bytes out of the bounce buffer, advance
`buf_cur`, and request more data once the buffer is drained. -/
def part_read_deliver (priv : part_priv) (len : Nat) :
    EFI_STATUS × buf_ptr × Nat × part_priv :=
  let n := min len (sub64 priv.buf_len priv.buf_cur)
  let buf := buf_ptr.part_buf priv.buf_cur
  let priv1 : part_priv := { priv with buf_cur := w64 (priv.buf_cur + n) }
  let priv2 : part_priv :=
    if priv1.buf_cur = priv1.buf_len then { priv1 with need_more_data := true }
    else priv1
  (EFI_SUCCESS, buf, n, priv2)

/-- `part_read`.  `disk_status` is the status the `ReadDisk` call returns
(the disk protocol is outside the sources); on its error the function
returns that status with `*buf`/`*len` untouched and `buf_len` already
overwritten, exactly as the C does. -/
def part_read (ctx : reader_ctx_t) (priv : part_priv) (len : Nat)
    (disk_status : EFI_STATUS) : EFI_STATUS × buf_ptr × Nat × part_priv :=
  if priv.need_more_data = true then
    let priv1 : part_priv :=
      { priv with buf_len := min PART_READER_BUF_SIZE (sub64 ctx.len ctx.cur) }
    if EFI_ERROR disk_status then (disk_status, .undef, len, priv1)
    else part_read_deliver { priv1 with need_more_data := false, buf_cur := 0 } len
  else part_read_deliver priv len

/-! ## read_from_private (reader.c lines 553-558), the read of the acpi and
efivar adapters -/

/-- `read_from_private`: points the buffer at `ctx->private + ctx->cur` and
leaves `*len` untouched (the parameter is `__unused__`). -/
def read_from_private (ctx : reader_ctx_t) (len : Nat) :
    EFI_STATUS × buf_ptr × Nat :=
  (EFI_SUCCESS, .priv_ptr ctx.cur, len)

/-! ## reader_read (reader.c lines 617-635) over the READERS table -/

/-- The state behind `ctx->reader->read`, one case per distinct read entry
of the `READERS` table (reader.c lines 565-575): `"ram"` binds `ram_read`,
`"part"` binds `part_read`, and both `"acpi"` and `"efivar"` bind
`read_from_private`.  For the partition adapter, `disk_status` is the status
the next `ReadDisk` call returns. -/
inductive adapter_state where
  | ram (priv : ram_priv)
  | part (priv : part_priv) (disk_status : EFI_STATUS)
  | direct
  deriving DecidableEq, Repr

/-- Dispatch of `ctx->reader->read(ctx, buf, len)`. -/
def adapter_read (st : adapter_state) (ctx : reader_ctx_t) (len : Nat) :
    EFI_STATUS × buf_ptr × Nat × adapter_state :=
  match st with
  | .ram priv =>
    match ram_read ctx priv len with
    | (s, buf, n, priv') => (s, buf, n, .ram priv')
  | .part priv ds =>
    match part_read ctx priv len ds with
    | (s, buf, n, priv') => (s, buf, n, .part priv' ds)
  | .direct =>
    match read_from_private ctx len with
    | (s, buf, n) => (s, buf, n, .direct)

/-- `reader_read` (reader.c lines 617-635): clamp the offered capacity to
the remaining stream, return 0 bytes with success at exhaustion, otherwise
dispatch to the adapter read and advance `ctx->cur` by the byte count the
adapter left in `*len`. -/
def reader_read (ctx : reader_ctx_t) (st : adapter_state) (len : Nat) :
    EFI_STATUS × buf_ptr × Nat × reader_ctx_t × adapter_state :=
  if len = 0 then (EFI_INVALID_PARAMETER, .undef, len, ctx, st)
  else
    let len1 := min len (sub64 ctx.len ctx.cur)
    if len1 = 0 then (EFI_SUCCESS, .undef, len1, ctx, st)
    else
      match adapter_read st ctx len1 with
      | (s, buf, n, st') =>
        if EFI_ERROR s then (s, buf, n, ctx, st')
        else (EFI_SUCCESS, buf, n, { ctx with cur := w64 (ctx.cur + n) }, st')

/-- The stream invariants an opened adapter state maintains: the RAM walk
cursor stays within the current region, and the partition bounce buffer is
never already drained when `need_more_data` is clear (part_open starts with
`need_more_data` set, and `part_read` re-sets it the moment `buf_cur`
reaches `buf_len`). -/
def adapter_inv : adapter_state → Prop
  | .ram priv => priv.cur ≤ priv.cur_end ∧ priv.cur_end < W64
  | .part priv _ => priv.buf_cur ≤ priv.buf_len ∧ priv.buf_len < W64 ∧
      (priv.need_more_data = false → priv.buf_cur < priv.buf_len)
  | .direct => True

/-! ## Derived quantities used by the specifications -/

/-- Sum of the exact byte sizes of the planned chunks (ghost record). -/
def sum_sizes (gs : List (Nat × Nat)) : Nat := (gs.map Prod.snd).sum

/-- The exact number of stream bytes the chunk plan contributes: one chunk
header per chunk plus the payload of each RAW chunk. -/
def len_of (gs : List (Nat × Nat)) : Nat :=
  (gs.map (fun p => sizeof_chunk_header +
    if p.1 = CHUNK_TYPE_RAW then p.2 else 0)).sum

/-- Sum of the stored (32-bit) block counts of the planned chunk headers. -/
def blks_of (cs : List chunk_header) : Nat := (cs.map chunk_header.chunk_sz).sum

/-- Sum of `block_count * P` over the planned chunk headers: the number of
physical bytes the plan covers. -/
def cover_of (cs : List chunk_header) : Nat :=
  (cs.map (fun c => c.chunk_sz * EFI_PAGE_SIZE)).sum

/-- Sum of the stored (32-bit) `total_sz` fields of the planned chunks. -/
def total_sz_of (cs : List chunk_header) : Nat :=
  (cs.map chunk_header.total_sz).sum

/-- Two adjacent descriptors (in list order) whose physical ranges overlap:
the second starts strictly before the first ends. -/
def has_adj_overlap : List EFI_MEMORY_DESCRIPTOR → Bool
  | a :: b :: t =>
    (b.PhysicalStart < a.PhysicalStart + a.NumberOfPages * EFI_PAGE_SIZE) ||
      has_adj_overlap (b :: t)
  | _ => false

/-- The chunk header `ram_add_chunk` builds from a chunk type and exact byte
size (32-bit truncation included). -/
def chunk_of_size (p : Nat × Nat) : chunk_header :=
  ⟨p.1, w32 (p.2 / EFI_PAGE_SIZE),
   if p.1 = CHUNK_TYPE_RAW then w32 (sizeof_chunk_header + p.2)
   else w32 sizeof_chunk_header⟩

/-- The chunk-header array is exactly the (truncating) image of the ghost
record of planned sizes. -/
def chunks_match (priv : ram_priv) : Prop :=
  priv.chunks = priv.gsizes.map chunk_of_size

/-- All planned sizes are page-multiples below `2^44` (so their page counts
fit the 32-bit `chunk_sz` field exactly). -/
def sizes_ok (gs : List (Nat × Nat)) : Prop :=
  ∀ p ∈ gs, p.2 < 2 ^ 44 ∧ p.2 % EFI_PAGE_SIZE = 0

/-- Bookkeeping invariant of the chunk-plan build: the stream length and the
sparse-header totals track the planned chunks. -/
def len_inv (ctx : reader_ctx_t) (priv : ram_priv) : Prop :=
  ctx.len = w64 (len_of priv.gsizes) ∧
  priv.sheader.total_chunks = priv.gsizes.length ∧
  priv.chunks.length = priv.gsizes.length ∧
  priv.chunk_nb = priv.gsizes.length ∧
  priv.gsizes.length ≤ MAX_MEMORY_REGION_NB ∧
  priv.sheader.total_blks = w32 (blks_of priv.chunks)

/-- Coverage invariant of the build walk for a window with `start = 0`: the
planned sizes sum to the physical position reached so far, the window end is
either the sentinel or ahead of that position, and every planned size is an
exact page-multiple below `2^44`. -/
def inv1 (priv : ram_priv) (prev : Nat) : Prop :=
  priv.start = 0 ∧
  sum_sizes priv.gsizes = prev ∧
  prev < 2 ^ 44 ∧
  (priv.end_ = 0 ∨ (prev ≤ priv.end_ ∧ priv.end_ < 2 ^ 44)) ∧
  sizes_ok priv.gsizes ∧
  chunks_match priv

/-! ## Concrete inputs used by witnesses and counterexamples -/

/-- A fresh (closed) RAM adapter state. -/
def g0 : ram_priv := zero_ram_priv

/-- One 16-page conventional region (the spec's scenario 1). -/
def map_single16 : List EFI_MEMORY_DESCRIPTOR := [⟨EfiConventionalMemory, 0, 16⟩]

/-- Two conventional regions with a 4-page hole (the spec's scenario 2). -/
def map_hole : List EFI_MEMORY_DESCRIPTOR :=
  [⟨EfiConventionalMemory, 0, 4⟩, ⟨EfiConventionalMemory, 0x8000, 4⟩]

/-- A 1-page region, then a hole, then a 2-page region: with window start
`0x4000` (inside the second region) the hole `[0x1000, 0x3000)` lies below
the window but is still emitted as a chunk. -/
def map_prestart_hole : List EFI_MEMORY_DESCRIPTOR :=
  [⟨EfiConventionalMemory, 0, 1⟩, ⟨EfiConventionalMemory, 0x3000, 2⟩]

/-- A single 4 GiB conventional region: its RAW chunk's byte size overflows
the 32-bit `total_sz` field. -/
def map_4gib : List EFI_MEMORY_DESCRIPTOR :=
  [⟨EfiConventionalMemory, 0, 0x100000⟩]

/-- Two 1-page regions around a hole: the window `[0, 0x2000)` ends exactly
at the second region's start, producing a zero-length descriptor chunk. -/
def map_zero_chunk : List EFI_MEMORY_DESCRIPTOR :=
  [⟨EfiConventionalMemory, 0, 1⟩, ⟨EfiConventionalMemory, 0x2000, 1⟩]

/-- A single 4-page conventional region. -/
def map_single4 : List EFI_MEMORY_DESCRIPTOR := [⟨EfiConventionalMemory, 0, 4⟩]

/-- A sorted map whose second and third descriptors overlap
(`[0x4000, 0x6000)` and `[0x5000, 0x7000)`), beyond the window `[0, 0x2000)`. -/
def map_overlap_tail : List EFI_MEMORY_DESCRIPTOR :=
  [⟨EfiConventionalMemory, 0, 2⟩, ⟨EfiConventionalMemory, 0x4000, 2⟩,
   ⟨EfiConventionalMemory, 0x5000, 2⟩]

/-- Two overlapping descriptors reached immediately by a full dump. -/
def map_overlap : List EFI_MEMORY_DESCRIPTOR :=
  [⟨EfiConventionalMemory, 0, 2⟩, ⟨EfiConventionalMemory, 0x1000, 2⟩]

/-- A 4-block partition of 512-byte blocks: total byte extent `0x800`. -/
def part_small : gpt_partition_interface := ⟨0, 3, 512⟩

/-- A streaming state in the middle of a RAW payload
(`cur = 0x1000`, `cur_end = 0x3000`). -/
def priv_s2 : ram_priv :=
  ⟨false, [], 0, 0, 0x1000, 0x3000, 0, 0, zero_sparse_header, [], []⟩

/-! ## Arithmetic helper lemmas -/

theorem W64_eq : W64 = 18446744073709551616 := rfl

theorem W32_eq : W32 = 4294967296 := rfl

theorem w64_eq_of_lt {a : Nat} (h : a < W64) : w64 a = a := Nat.mod_eq_of_lt h

theorem w32_eq_of_lt {a : Nat} (h : a < W32) : w32 a = a := Nat.mod_eq_of_lt h

theorem sub64_eq_of_le {a b : Nat} (hba : b ≤ a) (ha : a < W64) :
    sub64 a b = a - b := by
  unfold sub64
  have h1 : a + W64 - b = W64 + (a - b) := by omega
  rw [h1, Nat.add_mod_left]
  exact Nat.mod_eq_of_lt (by omega)

theorem sub64_ne_zero {a b : Nat} (ha : a < W64) (hb : b < W64) (hne : a ≠ b) :
    sub64 a b ≠ 0 := by
  rcases le_or_lt b a with h | h
  · rw [sub64_eq_of_le h ha]; omega
  · unfold sub64
    rw [Nat.mod_eq_of_lt (by omega)]
    omega

theorem w64_add_left (a b : Nat) : w64 (w64 a + b) = w64 (a + b) := by
  simp [w64, Nat.mod_add_mod]

theorem w32_add_left (a b : Nat) : w32 (w32 a + b) = w32 (a + b) := by
  simp [w32, Nat.mod_add_mod]

theorem len_of_append (gs : List (Nat × Nat)) (p : Nat × Nat) :
    len_of (gs ++ [p]) =
      len_of gs + (sizeof_chunk_header + if p.1 = CHUNK_TYPE_RAW then p.2 else 0) := by
  simp [len_of]

theorem sum_sizes_append (gs : List (Nat × Nat)) (p : Nat × Nat) :
    sum_sizes (gs ++ [p]) = sum_sizes gs + p.2 := by
  simp [sum_sizes]

theorem blks_of_append (cs : List chunk_header) (c : chunk_header) :
    blks_of (cs ++ [c]) = blks_of cs + c.chunk_sz := by
  simp [blks_of]

/-- For page-multiples below `2^44` the stored 32-bit block count recovers
the exact byte size. -/
theorem cover_of_map_chunk_of_size (gs : List (Nat × Nat)) (hok : sizes_ok gs) :
    cover_of (gs.map chunk_of_size) = sum_sizes gs := by
  induction gs with
  | nil => rfl
  | cons p t ih =>
    have hp := hok p (by simp)
    have ht : sizes_ok t := fun q hq => hok q (by simp [hq])
    have hdiv : p.2 / EFI_PAGE_SIZE < W32 := by
      rw [Nat.div_lt_iff_lt_mul (by norm_num [EFI_PAGE_SIZE] : 0 < EFI_PAGE_SIZE)]
      calc p.2 < 2 ^ 44 := hp.1
        _ ≤ W32 * EFI_PAGE_SIZE := by norm_num [W32_eq, EFI_PAGE_SIZE]
    have hrec : w32 (p.2 / EFI_PAGE_SIZE) * EFI_PAGE_SIZE = p.2 := by
      rw [w32_eq_of_lt hdiv, Nat.div_mul_cancel (Nat.dvd_of_mod_eq_zero hp.2)]
    have ihx := ih ht
    simp only [cover_of, sum_sizes] at ihx
    simp only [List.map_cons, cover_of, sum_sizes, List.sum_cons, chunk_of_size]
    rw [hrec, ihx]

/-! ## C8 — partition adapter boundary validation (code bug)

The code rejects `offset + length == length_total` (reader.c line 381 uses
`ctx->cur >= length - ctx->len`), although such a range is exactly the tail
of the partition and the spec requires only `offset + length ≤ length_total`.
In particular the explicit arguments `offset = 0, length = length_total`,
which denote the whole partition, are rejected even though the bare open of
the same partition succeeds with the identical stream bounds. -/

/-- **C8.** At the failing input: the partition's total byte extent is
`0x800`; the bare open accepts it and sets `ctx.len = 0x800`; the explicit
`offset = 0, length = 0x800` — which satisfies the claimed conditions
`offset < length_total`, `length > 0`, `offset + length ≤ length_total` — is
rejected with `EFI_INVALID_PARAMETER`. -/
theorem part_open_full_range_rejected :
    (part_open part_small []).1 = EFI_SUCCESS ∧
    (part_open part_small []).2.len = 0x800 ∧
    (0 : Nat) < 0x800 ∧ (0x800 : Nat) > 0 ∧ (0 : Nat) + 0x800 ≤ 0x800 ∧
    (part_open part_small [0, 0x800]).1 = EFI_INVALID_PARAMETER := by
  decide

/-! ## C9 — the chunk plan is freed (code bug)

The spec (Design notes, "Open question") states the chunk plan must never be
freed because it lives inside the static private region, and claim C9 says
neither the error path of the build nor `ram_close` frees it.  The code does
both: the `err:` label of `ram_build_chunks` (line 199-200) executes
`FreePool(priv->chunks)` — the `if (priv->chunks)` guard is an array decay,
always non-NULL — and `ram_close` (line 320) unconditionally executes
`FreePool(priv->chunks)`. -/

/-- **C9.** Evaluating the code at a failing input: building the plan for an
overlapping map takes the error path and executes `FreePool(priv->chunks)`
(the `Bool` component records the free), and `ram_close` executes
`FreePool(priv->chunks)` on every close. -/
theorem ram_frees_chunk_plan :
    (ram_build_chunks ⟨0, 0⟩ { zero_ram_priv with is_in_used := true }
      map_overlap).2.2.2 = true ∧
    (ram_build_chunks ⟨0, 0⟩ { zero_ram_priv with is_in_used := true }
      map_overlap).1 = EFI_INVALID_PARAMETER ∧
    (∀ p : ram_priv, (ram_close p).2 = true) := by
  exact ⟨by decide, by decide, fun p => rfl⟩

/-! ## C1 — chunk-plan coverage -/

/-- **C1, counterexample.** A page-aligned window accepted by `ram_open`
whose chunk plan does not cover `[start, end)`: with the window starting at
`0x4000`, strictly inside the second descriptor, the hole `[0x1000, 0x3000)`
below the window start is still emitted as a DONT_CARE chunk, so the planned
bytes sum to `0x3000` while `end - start = 0x1000`. -/
theorem ram_chunk_plan_coverage_cex :
    (ram_open g0 [0x4000] map_prestart_hole).1 = EFI_SUCCESS ∧
    cover_of (ram_open g0 [0x4000] map_prestart_hole).2.2.chunks = 0x3000 ∧
    sum_sizes (ram_open g0 [0x4000] map_prestart_hole).2.2.gsizes = 0x3000 ∧
    (ram_open g0 [0x4000] map_prestart_hole).2.2.end_ -
      (ram_open g0 [0x4000] map_prestart_hole).2.2.start = 0x1000 := by
  decide

/-! ## C2 — header/length consistency -/

/-- **C2, counterexample.** After a successful `ram_open` of a single 4 GiB
conventional region, the stream length does not equal
`sizeof(header) + sum(chunk.total_sz)`: the single RAW chunk's
`total_sz` field is 32-bit and wraps to 12, while `ctx.len` counts the full
`2^32` payload. -/
theorem ram_header_consistency_cex :
    (ram_open g0 [] map_4gib).1 = EFI_SUCCESS ∧
    (ram_open g0 [] map_4gib).2.1.len ≠
      sizeof_sparse_header + total_sz_of (ram_open g0 [] map_4gib).2.2.chunks := by
  decide

/-! ## C5 — chunk length positivity -/

/-- **C5, counterexample.** A window and map accepted by `ram_open` whose
plan contains a zero-length chunk: the window end `0x2000` coincides with the
start of a descriptor that follows a hole, so the hole chunk already reaches
the window end and the clipped descriptor chunk has length 0. -/
theorem ram_chunk_positive_cex :
    (ram_open g0 [0, 0x2000] map_zero_chunk).1 = EFI_SUCCESS ∧
    (CHUNK_TYPE_RAW, 0) ∈ (ram_open g0 [0, 0x2000] map_zero_chunk).2.2.gsizes := by
  decide

/-! ## C6 — degenerate and misaligned windows -/

/-- **C6, counterexample.** A window with `start == end` does not fail: args
`start = 0x1000, length = 0` give `start = end = 0x1000`, and `ram_open`
succeeds (emitting a zero-length chunk) rather than failing
`EFI_INVALID_PARAMETER`. -/
theorem ram_open_start_eq_end_cex :
    (ram_open g0 [0x1000, 0] map_single4).1 = EFI_SUCCESS ∧
    (ram_open g0 [0x1000, 0] map_single4).2.2.start =
      (ram_open g0 [0x1000, 0] map_single4).2.2.end_ := by
  decide

/-! ## C7 — overlap rejection -/

/-- **C7, counterexample.** A firmware map containing two overlapping
descriptors for which `ram_open` succeeds: the overlapping pair lies beyond
the requested window `[0, 0x2000)`, so the walk stops before reaching it and
no overlap is detected. -/
theorem ram_open_overlap_cex :
    has_adj_overlap (sort_memory_map map_overlap_tail) = true ∧
    (ram_open g0 [0, 0x2000] map_overlap_tail).1 = EFI_SUCCESS := by
  decide

/-- **C6, amended.** The misalignment half of the claim holds: whenever the
parsed window start is not a page-multiple (and the singleton flag does not
pre-empt the check), `ram_open` fails `EFI_INVALID_PARAMETER`. -/
theorem ram_open_misaligned_invalid (g : ram_priv) (s : Nat) (rest : List Nat)
    (m : List EFI_MEMORY_DESCRIPTOR) (hflag : g.is_in_used = false)
    (hs : s % EFI_PAGE_SIZE ≠ 0) (hlen : rest.length ≤ 1) :
    (ram_open g (s :: rest) m).1 = EFI_INVALID_PARAMETER := by
  simp only [ram_open]
  rw [if_neg (by simp only [List.length_cons]; omega),
      if_neg (by simp [hflag]),
      if_pos (Or.inl (by simpa [ram_open_parsed] using hs))]

/-- **C6, witness.** The misaligned start `s = 1` is rejected. -/
theorem ram_open_misaligned_invalid_witness :
    (ram_open g0 [1] map_single16).1 = EFI_INVALID_PARAMETER :=
  ram_open_misaligned_invalid g0 1 [] map_single16 rfl (by decide) (by decide)

/-! ## C10 — the RAM adapter singleton flag -/

/-- **C10.** The singleton discipline of the in-use flag: a `ram_open` while
the flag is set fails `EFI_UNSUPPORTED` and leaves the state untouched (so
the first stream stays open); when the flag was clear, every failing
`ram_open` leaves the flag clear; and `ram_close` always clears the flag. -/
theorem ram_singleton_flag (g : ram_priv) (args : List Nat)
    (m : List EFI_MEMORY_DESCRIPTOR) :
    (args.length ≤ 2 → g.is_in_used = true →
      (ram_open g args m).1 = EFI_UNSUPPORTED ∧ (ram_open g args m).2.2 = g) ∧
    (g.is_in_used = false → (ram_open g args m).1 ≠ EFI_SUCCESS →
      (ram_open g args m).2.2.is_in_used = false) ∧
    (∀ p : ram_priv, (ram_close p).1.is_in_used = false) := by
  refine ⟨?_, ?_, fun p => rfl⟩
  · intro hle hflag
    simp only [ram_open]
    rw [if_neg (by omega), if_pos hflag]
    exact ⟨rfl, rfl⟩
  · intro hflag
    simp only [ram_open]
    by_cases h2 : args.length > 2
    · rw [if_pos h2]; intro _; exact hflag
    · rw [if_neg h2, if_neg (by simp [hflag])]
      by_cases ha : (ram_open_parsed args).start % EFI_PAGE_SIZE ≠ 0 ∨
          (ram_open_parsed args).end_ % EFI_PAGE_SIZE ≠ 0
      · rw [if_pos ha]; intro _; rfl
      · rw [if_neg ha]
        rcases hb : ram_build_chunks ⟨0, 0⟩ (ram_open_priv0 args m)
            (ram_open_priv0 args m).memmap with ⟨st, ctx1, priv1, fr⟩
        by_cases he : EFI_ERROR st = true
        · rw [if_pos he]; intro _; rfl
        · rw [if_neg he]; intro hns; exact absurd rfl hns

/-- **C10, witness.** A second open while a stream is open is refused and
does not disturb the open stream's state; a failed open (misaligned start)
leaves the flag clear; `ram_close` clears the flag. -/
theorem ram_singleton_flag_witness :
    (ram_open { g0 with is_in_used := true } [] map_single16).1 = EFI_UNSUPPORTED ∧
    (ram_open g0 [1] map_single16).2.2.is_in_used = false ∧
    (ram_close (ram_open g0 [] map_single16).2.2).1.is_in_used = false := by
  refine ⟨(((ram_singleton_flag { g0 with is_in_used := true } [] map_single16).1)
      (by decide) rfl).1, ?_, ?_⟩
  · exact (ram_singleton_flag g0 [1] map_single16).2.1 rfl (by decide)
  · exact (ram_singleton_flag g0 [] map_single16).2.2 _

/-! ## C3 — the ram_read three-state machine -/

/-- **C3.** The streaming state machine of `ram_read`: at `ctx.cur == 0`
(S0) a capacity below `sizeof(sparse_header)` is refused with
`EFI_INVALID_PARAMETER`, otherwise exactly the header bytes are returned and
both cursors are set to `start`; at a chunk boundary (`cur == cur_end`, S1)
a capacity below `sizeof(chunk_header)` is refused, otherwise the next chunk
header is returned, `cur_end` becomes `cur + block_count * P` (64-bit), and
a non-RAW (DONT_CARE) chunk advances `cur` to `cur_end` so no payload is
emitted; otherwise (S2) `min(capacity, cur_end - cur)` payload bytes are
returned whose buffer pointer is the physical address `cur`, and `cur`
advances by that amount. -/
theorem ram_read_state_machine (ctx : reader_ctx_t) (priv : ram_priv)
    (len : Nat) (hcur : priv.cur ≤ priv.cur_end) (hce : priv.cur_end < W64) :
    (ctx.cur = 0 →
      (len < sizeof_sparse_header →
        (ram_read ctx priv len).1 = EFI_INVALID_PARAMETER) ∧
      (sizeof_sparse_header ≤ len →
        ram_read ctx priv len =
          (EFI_SUCCESS, .sheader_ptr, sizeof_sparse_header,
           { priv with cur := priv.start, cur_end := priv.start }))) ∧
    (ctx.cur ≠ 0 → priv.cur = priv.cur_end →
      (len < sizeof_chunk_header →
        (ram_read ctx priv len).1 = EFI_INVALID_PARAMETER) ∧
      (sizeof_chunk_header ≤ len → priv.cur_chunk < priv.chunk_nb →
        (ram_read ctx priv len).1 = EFI_SUCCESS ∧
        (ram_read ctx priv len).2.1 = .chunk_ptr priv.cur_chunk ∧
        (ram_read ctx priv len).2.2.1 = sizeof_chunk_header ∧
        (ram_read ctx priv len).2.2.2.cur_chunk = priv.cur_chunk + 1 ∧
        (ram_read ctx priv len).2.2.2.cur_end =
          w64 (priv.cur +
            (priv.chunks.getD priv.cur_chunk zero_chunk).chunk_sz * EFI_PAGE_SIZE) ∧
        ((priv.chunks.getD priv.cur_chunk zero_chunk).chunk_type ≠ CHUNK_TYPE_RAW →
          (ram_read ctx priv len).2.2.2.cur = (ram_read ctx priv len).2.2.2.cur_end) ∧
        ((priv.chunks.getD priv.cur_chunk zero_chunk).chunk_type = CHUNK_TYPE_RAW →
          (ram_read ctx priv len).2.2.2.cur = priv.cur))) ∧
    (ctx.cur ≠ 0 → priv.cur ≠ priv.cur_end →
      (ram_read ctx priv len).1 = EFI_SUCCESS ∧
      (ram_read ctx priv len).2.1 = .phys priv.cur ∧
      (ram_read ctx priv len).2.2.1 = min len (priv.cur_end - priv.cur) ∧
      (ram_read ctx priv len).2.2.2.cur =
        priv.cur + min len (priv.cur_end - priv.cur)) := by
  refine ⟨?_, ?_, ?_⟩
  · intro h0
    constructor
    · intro hlt; simp [ram_read, h0, hlt]
    · intro hge; simp [ram_read, h0, Nat.not_lt.mpr hge]
  · intro h0 hb
    constructor
    · intro hlt
      by_cases hch : priv.cur_chunk = priv.chunk_nb
      · simp [ram_read, h0, hb, hch]
      · simp [ram_read, h0, hb, hch, hlt]
    · intro hge hch
      have hne : ¬(priv.cur_chunk = priv.chunk_nb ∨ len < sizeof_chunk_header) := by
        push_neg
        exact ⟨by omega, by omega⟩
      simp only [ram_read]
      rw [if_neg h0, if_pos hb, if_neg hne]
      by_cases hty : (priv.chunks.getD priv.cur_chunk zero_chunk).chunk_type =
          CHUNK_TYPE_RAW
      · rw [if_neg (by simpa using hty)]
        exact ⟨rfl, rfl, rfl, rfl, rfl, fun h => absurd hty h, fun _ => rfl⟩
      · rw [if_pos hty]
        exact ⟨rfl, rfl, rfl, rfl, rfl, fun _ => rfl, fun h => absurd h hty⟩
  · intro h0 hb
    have hsub : sub64 priv.cur_end priv.cur = priv.cur_end - priv.cur :=
      sub64_eq_of_le hcur hce
    have hw : w64 (priv.cur + min len (priv.cur_end - priv.cur)) =
        priv.cur + min len (priv.cur_end - priv.cur) := by
      apply w64_eq_of_lt
      have := Nat.min_le_right len (priv.cur_end - priv.cur)
      omega
    simp [ram_read, h0, hb, hsub, hw]

/-- **C3, witness.** A concrete S2 state: at `cur = 0x1000`,
`cur_end = 0x3000`, a 6-byte capacity returns 6 payload bytes at physical
address `0x1000` and advances `cur` to `0x1006`. -/
theorem ram_read_state_machine_witness :
    (ram_read ⟨28, 100⟩ priv_s2 6).1 = EFI_SUCCESS ∧
    (ram_read ⟨28, 100⟩ priv_s2 6).2.1 = .phys 0x1000 ∧
    (ram_read ⟨28, 100⟩ priv_s2 6).2.2.1 = 6 := by
  have h := ram_read_state_machine ⟨28, 100⟩ priv_s2 6 (by decide) (by decide)
  have h3 := h.2.2 (by decide) (by decide)
  refine ⟨h3.1, h3.2.1, ?_⟩
  rw [h3.2.2.1]
  decide

/-! ## C4 — reader_read progress and exhaustion -/

/-- Serving out of a non-drained bounce buffer returns a positive byte count
within the offered capacity. -/
theorem part_read_deliver_bounds (priv : part_priv) (len : Nat)
    (h : priv.buf_cur < priv.buf_len) (hl : priv.buf_len < W64)
    (hpos : 0 < len) :
    1 ≤ (part_read_deliver priv len).2.2.1 ∧
    (part_read_deliver priv len).2.2.1 ≤ len := by
  simp only [part_read_deliver]
  rw [sub64_eq_of_le (Nat.le_of_lt h) hl]
  constructor
  · have h2 := Nat.min_le_right len (priv.buf_len - priv.buf_cur)
    omega
  · exact Nat.min_le_left _ _

/-- On a successful adapter read with a positive clamped capacity and a
non-exhausted stream, every adapter of the `READERS` table leaves a positive
byte count within the offered capacity in `*len`. -/
theorem adapter_read_bounds (st : adapter_state) (ctx : reader_ctx_t)
    (len1 : Nat) (hinv : adapter_inv st) (hpos : 0 < len1)
    (hls : 0 < sub64 ctx.len ctx.cur)
    (hok : (adapter_read st ctx len1).1 = EFI_SUCCESS) :
    1 ≤ (adapter_read st ctx len1).2.2.1 ∧
    (adapter_read st ctx len1).2.2.1 ≤ len1 := by
  cases st with
  | ram priv =>
    obtain ⟨hcur, hce⟩ := (hinv : priv.cur ≤ priv.cur_end ∧ priv.cur_end < W64)
    simp only [adapter_read] at hok ⊢
    rcases hr : ram_read ctx priv len1 with ⟨s, buf, n, priv'⟩
    rw [hr] at hok
    dsimp only at hok ⊢
    rw [ram_read] at hr
    by_cases h0 : ctx.cur = 0
    · rw [if_pos h0] at hr
      by_cases hlt : len1 < sizeof_sparse_header
      · rw [if_pos hlt] at hr
        simp only [Prod.mk.injEq] at hr
        exact absurd (hr.1.trans hok) (by decide)
      · rw [if_neg hlt] at hr
        simp only [Prod.mk.injEq] at hr
        have hn' := hr.2.2.1
        simp only [sizeof_sparse_header] at hlt hn'
        omega
    · rw [if_neg h0] at hr
      by_cases hbd : priv.cur = priv.cur_end
      · rw [if_pos hbd] at hr
        by_cases hc2 : priv.cur_chunk = priv.chunk_nb ∨ len1 < sizeof_chunk_header
        · rw [if_pos hc2] at hr
          simp only [Prod.mk.injEq] at hr
          exact absurd (hr.1.trans hok) (by decide)
        · rw [if_neg hc2] at hr
          simp only [Prod.mk.injEq] at hr
          have hn' := hr.2.2.1
          push_neg at hc2
          simp only [sizeof_chunk_header] at hc2 hn'
          omega
      · rw [if_neg hbd] at hr
        simp only [Prod.mk.injEq] at hr
        have hn' := hr.2.2.1
        have hnz : sub64 priv.cur_end priv.cur ≠ 0 := by
          rw [sub64_eq_of_le hcur hce]
          omega
        constructor
        · rcases Nat.eq_zero_or_pos n with h | h
          · rw [← hn'] at h
            rcases Nat.min_eq_zero_iff.1 h with h' | h' <;> omega
          · omega
        · rw [← hn']
          exact Nat.min_le_left _ _
  | part priv ds =>
    obtain ⟨hbc, hbl, hnd⟩ := (hinv : priv.buf_cur ≤ priv.buf_len ∧
      priv.buf_len < W64 ∧
      (priv.need_more_data = false → priv.buf_cur < priv.buf_len))
    simp only [adapter_read] at hok ⊢
    rcases hr : part_read ctx priv len1 ds with ⟨s, buf, n, priv'⟩
    rw [hr] at hok
    dsimp only at hok ⊢
    rw [part_read] at hr
    by_cases hnm : priv.need_more_data = true
    · rw [if_pos hnm] at hr
      by_cases hds : EFI_ERROR ds = true
      · rw [if_pos hds] at hr
        simp only [Prod.mk.injEq] at hr
        simp only [EFI_ERROR, decide_eq_true_eq] at hds
        exact absurd (hr.1.trans hok) hds
      · rw [if_neg hds] at hr
        have hb := part_read_deliver_bounds
          { priv with
            buf_len := min PART_READER_BUF_SIZE (sub64 ctx.len ctx.cur),
            need_more_data := false, buf_cur := 0 }
          len1
          (by show 0 < min PART_READER_BUF_SIZE (sub64 ctx.len ctx.cur)
              have : 0 < PART_READER_BUF_SIZE := by norm_num [PART_READER_BUF_SIZE]
              omega)
          (by show min PART_READER_BUF_SIZE (sub64 ctx.len ctx.cur) < W64
              have h2 := Nat.min_le_left PART_READER_BUF_SIZE
                (sub64 ctx.len ctx.cur)
              have : PART_READER_BUF_SIZE < W64 := by
                norm_num [PART_READER_BUF_SIZE, W64]
              omega)
          hpos
        rw [hr] at hb
        exact hb
    · rw [if_neg hnm] at hr
      have hb := part_read_deliver_bounds priv len1
        (hnd (by simpa using hnm)) hbl hpos
      rw [hr] at hb
      exact hb
  | direct =>
    simp only [adapter_read, read_from_private]
    exact ⟨hpos, Nat.le_refl _⟩

/-- **C4.** For every opened context of any adapter in the `READERS` table
(RAM, partition, and the acpi/efivar direct reads), a successful
`reader_read` returns `n ≤ min(max_len, ctx.len - ctx.cur)` and advances
`ctx.cur` by exactly `n`, with `n = 0` exactly when the stream was already
exhausted (`ctx.cur = ctx.len`); and a call after exhaustion (with a
non-empty buffer) returns 0 bytes with `EFI_SUCCESS`, not an error. -/
theorem reader_read_progress (ctx : reader_ctx_t) (st : adapter_state)
    (len : Nat) (hcl : ctx.cur ≤ ctx.len) (hlen : ctx.len < W64)
    (hinv : adapter_inv st) :
    ((reader_read ctx st len).1 = EFI_SUCCESS →
      (reader_read ctx st len).2.2.1 ≤ min len (ctx.len - ctx.cur) ∧
      (reader_read ctx st len).2.2.2.1.cur =
        ctx.cur + (reader_read ctx st len).2.2.1 ∧
      ((reader_read ctx st len).2.2.1 = 0 ↔ ctx.cur = ctx.len)) ∧
    (ctx.cur = ctx.len → 0 < len →
      (reader_read ctx st len).1 = EFI_SUCCESS ∧
      (reader_read ctx st len).2.2.1 = 0) := by
  have hsub : sub64 ctx.len ctx.cur = ctx.len - ctx.cur := sub64_eq_of_le hcl hlen
  constructor
  · intro hok
    by_cases hz : len = 0
    · rw [reader_read, if_pos hz] at hok
      simp at hok
    · rw [reader_read] at hok ⊢
      rw [if_neg hz, hsub] at hok ⊢
      by_cases h1 : min len (ctx.len - ctx.cur) = 0
      · rw [if_pos h1] at hok ⊢
        have hcl2 : ctx.cur = ctx.len := by
          rcases Nat.min_eq_zero_iff.1 h1 with h | h
          · exact absurd h hz
          · omega
        exact ⟨le_rfl, by simp [h1], by simp [h1, hcl2]⟩
      · rw [if_neg h1] at hok ⊢
        have hls : 0 < sub64 ctx.len ctx.cur := by
          rw [hsub]
          have h2 := Nat.min_le_right len (ctx.len - ctx.cur)
          omega
        rcases hr : adapter_read st ctx (min len (ctx.len - ctx.cur)) with
          ⟨s, buf, n, st'⟩
        rw [hr] at hok
        dsimp only at hok ⊢
        by_cases he : EFI_ERROR s = true
        · rw [if_pos he] at hok
          simp only [EFI_ERROR, decide_eq_true_eq] at he
          exact absurd hok he
        · rw [if_neg he] at hok ⊢
          dsimp only at hok ⊢
          have hS : s = EFI_SUCCESS := by
            simpa [EFI_ERROR] using he
          have hn := adapter_read_bounds st ctx (min len (ctx.len - ctx.cur))
            hinv (Nat.pos_of_ne_zero h1) hls (by rw [hr]; exact hS)
          rw [hr] at hn
          dsimp only at hn
          obtain ⟨hn2, hn1⟩ := hn
          refine ⟨hn1, ?_, ?_⟩
          · show w64 (ctx.cur + n) = ctx.cur + n
            apply w64_eq_of_lt
            have : n ≤ ctx.len - ctx.cur :=
              le_trans hn1 (Nat.min_le_right _ _)
            omega
          · constructor
            · intro h; omega
            · intro h
              have : n ≤ ctx.len - ctx.cur :=
                le_trans hn1 (Nat.min_le_right _ _)
              omega
  · intro hx hpos
    rw [reader_read]
    rw [if_neg (by omega), hsub]
    rw [if_pos (by omega)]
    refine ⟨rfl, ?_⟩
    show len ⊓ (ctx.len - ctx.cur) = 0
    omega

/-! ## Lemmas about ram_add_chunk -/

/-- Successful `ram_add_chunk`, in closed form. -/
theorem ram_add_chunk_eq (ctx : reader_ctx_t) (priv : ram_priv) (ty size : Nat)
    (h1 : size % EFI_PAGE_SIZE = 0) (h2 : priv.chunk_nb ≠ MAX_MEMORY_REGION_NB) :
    ram_add_chunk ctx priv ty size =
      (EFI_SUCCESS,
       { ctx with len := if ty = CHUNK_TYPE_RAW
           then w64 (w64 (ctx.len + sizeof_chunk_header) + size)
           else w64 (ctx.len + sizeof_chunk_header) },
       { priv with
         chunk_nb := priv.chunk_nb + 1,
         chunks := priv.chunks ++ [chunk_of_size (ty, size)],
         gsizes := priv.gsizes ++ [(ty, size)],
         sheader := { priv.sheader with
           total_chunks := w32 (priv.sheader.total_chunks + 1),
           total_blks := w32 (priv.sheader.total_blks + w32 (size / EFI_PAGE_SIZE)) } }) := by
  rw [ram_add_chunk, if_neg (by simp [h1]), if_neg h2]
  by_cases hty : ty = CHUNK_TYPE_RAW
  · simp only [chunk_of_size, hty, if_pos]
  · simp only [chunk_of_size, hty, if_neg, ite_false]

/-- A successful `ram_add_chunk` implies both guards passed. -/
theorem ram_add_chunk_success (ctx : reader_ctx_t) (priv : ram_priv)
    (ty size : Nat) (h : (ram_add_chunk ctx priv ty size).1 = EFI_SUCCESS) :
    size % EFI_PAGE_SIZE = 0 ∧ priv.chunk_nb ≠ MAX_MEMORY_REGION_NB := by
  rw [ram_add_chunk] at h
  by_cases h1 : size % EFI_PAGE_SIZE ≠ 0
  · rw [if_pos h1] at h
    simp at h
  · rw [if_neg h1] at h
    by_cases h2 : priv.chunk_nb = MAX_MEMORY_REGION_NB
    · rw [if_pos h2] at h
      simp at h
    · push_neg at h1
      exact ⟨h1, h2⟩

/-- With free capacity, `ram_add_chunk` never reports `EFI_OUT_OF_RESOURCES`:
it either succeeds or rejects a misaligned size. -/
theorem ram_add_chunk_status (ctx : reader_ctx_t) (priv : ram_priv)
    (ty size : Nat) (h2 : priv.chunk_nb ≠ MAX_MEMORY_REGION_NB) :
    (ram_add_chunk ctx priv ty size).1 = EFI_SUCCESS ∨
    (ram_add_chunk ctx priv ty size).1 = EFI_INVALID_PARAMETER := by
  rw [ram_add_chunk]
  by_cases h1 : size % EFI_PAGE_SIZE ≠ 0
  · rw [if_pos h1]
    exact Or.inr rfl
  · rw [if_neg h1, if_neg h2]
    exact Or.inl rfl

/-- `ram_add_chunk` never changes the window, the in-use flag, or shrinks the
chunk counter. -/
theorem ram_add_chunk_frame (ctx : reader_ctx_t) (priv : ram_priv)
    (ty size : Nat) :
    (ram_add_chunk ctx priv ty size).2.2.start = priv.start ∧
    (ram_add_chunk ctx priv ty size).2.2.end_ = priv.end_ ∧
    (ram_add_chunk ctx priv ty size).2.2.is_in_used = priv.is_in_used ∧
    (ram_add_chunk ctx priv ty size).2.2.chunk_nb ≤ priv.chunk_nb + 1 := by
  rw [ram_add_chunk]
  by_cases h1 : size % EFI_PAGE_SIZE ≠ 0
  · rw [if_pos h1]
    exact ⟨rfl, rfl, rfl, Nat.le_succ _⟩
  · rw [if_neg h1]
    by_cases h2 : priv.chunk_nb = MAX_MEMORY_REGION_NB
    · rw [if_pos h2]
      exact ⟨rfl, rfl, rfl, Nat.le_succ _⟩
    · rw [if_neg h2]
      exact ⟨rfl, rfl, rfl, Nat.le_refl _⟩

/-- `ram_add_chunk` preserves the bookkeeping invariant. -/
theorem ram_add_chunk_len_inv (ctx : reader_ctx_t) (priv : ram_priv)
    (ty size : Nat) (h : len_inv ctx priv) :
    len_inv (ram_add_chunk ctx priv ty size).2.1
      (ram_add_chunk ctx priv ty size).2.2 := by
  by_cases h1 : size % EFI_PAGE_SIZE ≠ 0
  · rw [ram_add_chunk, if_pos h1]
    exact h
  · by_cases h2 : priv.chunk_nb = MAX_MEMORY_REGION_NB
    · rw [ram_add_chunk, if_neg h1, if_pos h2]
      exact h
    · push_neg at h1
      rw [ram_add_chunk_eq ctx priv ty size h1 h2]
      obtain ⟨hL, hTC, hCL, hNB, hMax, hTB⟩ := h
      have hcap : priv.gsizes.length ≤ 255 := by
        rw [← hNB]
        rw [← hNB] at hMax
        simp only [MAX_MEMORY_REGION_NB] at hMax h2 ⊢
        omega
      refine ⟨?_, ?_, ?_, ?_, ?_, ?_⟩
      · show (if ty = CHUNK_TYPE_RAW
            then w64 (w64 (ctx.len + sizeof_chunk_header) + size)
            else w64 (ctx.len + sizeof_chunk_header)) =
          w64 (len_of (priv.gsizes ++ [(ty, size)]))
        rw [len_of_append, hL]
        by_cases hty : ty = CHUNK_TYPE_RAW
        · rw [if_pos hty, if_pos hty]
          simp only [w64_add_left]
          congr 1
          try omega
        · rw [if_neg hty, if_neg hty]
          simp only [w64_add_left]
          congr 1
          try omega
      · show w32 (priv.sheader.total_chunks + 1) = (priv.gsizes ++ [(ty, size)]).length
        rw [hTC, w32_eq_of_lt (by simp only [W32_eq]; omega)]
        simp
      · simp [hCL]
      · simp [hNB]
      · simp only [List.length_append, List.length_cons, List.length_nil,
          MAX_MEMORY_REGION_NB]
        omega
      · show w32 (priv.sheader.total_blks + w32 (size / EFI_PAGE_SIZE)) =
          w32 (blks_of (priv.chunks ++ [chunk_of_size (ty, size)]))
        rw [blks_of_append, hTB, w32_add_left]
        rfl

/-! ## The bookkeeping invariant through the build walk -/

/-- `ram_build_desc` preserves the bookkeeping invariant. -/
theorem ram_build_desc_len_inv (ctx : reader_ctx_t) (priv : ram_priv)
    (prev_end : Nat) (entry : EFI_MEMORY_DESCRIPTOR) (entry_len entry_end : Nat)
    (h : len_inv ctx priv) :
    len_inv (ram_build_desc ctx priv prev_end entry entry_len entry_end).ctx
      (ram_build_desc ctx priv prev_end entry entry_len entry_end).priv := by
  unfold ram_build_desc
  rcases hA : ram_add_chunk ctx priv (desc_type entry)
      (desc_length priv entry entry_len entry_end) with ⟨stA, ctxA, privA⟩
  have h' := ram_add_chunk_len_inv ctx priv (desc_type entry)
      (desc_length priv entry entry_len entry_end) h
  rw [hA] at h'
  dsimp only
  by_cases he : EFI_ERROR stA = true
  · rw [if_pos he]
    exact h'
  · rw [if_neg he]
    by_cases hb : privA.end_ ≠ 0 ∧ privA.end_ ≤ entry_end
    · rw [if_pos hb]
      exact h'
    · rw [if_neg hb]
      exact h'

/-- `ram_build_step` preserves the bookkeeping invariant. -/
theorem ram_build_step_len_inv (ctx : reader_ctx_t) (priv : ram_priv)
    (prev_end : Nat) (entry : EFI_MEMORY_DESCRIPTOR) (h : len_inv ctx priv) :
    len_inv (ram_build_step ctx priv prev_end entry).ctx
      (ram_build_step ctx priv prev_end entry).priv := by
  simp only [ram_build_step]
  by_cases hskip : priv.start ≥
      w64 (entry.PhysicalStart + w64 (entry.NumberOfPages * EFI_PAGE_SIZE))
  · rw [if_pos hskip]
    exact h
  · rw [if_neg hskip]
    by_cases hne : prev_end ≠ entry.PhysicalStart
    · rw [if_pos hne]
      by_cases hgt : prev_end > entry.PhysicalStart
      · rw [if_pos hgt]
        exact h
      · rw [if_neg hgt]
        rcases hA : ram_add_chunk ctx priv CHUNK_TYPE_DONT_CARE
            (hole_length priv prev_end entry) with ⟨stA, ctxA, privA⟩
        have h' := ram_add_chunk_len_inv ctx priv CHUNK_TYPE_DONT_CARE
            (hole_length priv prev_end entry) h
        rw [hA] at h'
        dsimp only
        by_cases he : EFI_ERROR stA = true
        · rw [if_pos he]
          exact h'
        · rw [if_neg he]
          by_cases hb : privA.end_ ≠ 0 ∧ privA.end_ < entry.PhysicalStart
          · rw [if_pos hb]
            exact h'
          · rw [if_neg hb]
            exact ram_build_desc_len_inv ctxA privA prev_end entry _ _ h'
    · rw [if_neg hne]
      exact ram_build_desc_len_inv ctx priv prev_end entry _ _ h

/-- The build loop preserves the bookkeeping invariant. -/
theorem ram_build_loop_len_inv (es : List EFI_MEMORY_DESCRIPTOR) :
    ∀ ctx priv prev_end, len_inv ctx priv →
      len_inv (ram_build_loop ctx priv prev_end es).ctx
        (ram_build_loop ctx priv prev_end es).priv := by
  induction es with
  | nil =>
    intro ctx priv prev h
    exact h
  | cons e rest ih =>
    intro ctx priv prev h
    rw [ram_build_loop]
    by_cases hc : (ram_build_step ctx priv prev e).cont = true
    · rw [if_pos hc]
      exact ih _ _ _ (ram_build_step_len_inv ctx priv prev e h)
    · rw [if_neg hc]
      exact ram_build_step_len_inv ctx priv prev e h

/-- `ram_build_chunks` yields a state satisfying the bookkeeping invariant
whenever the input plan is empty. -/
theorem ram_build_chunks_len_inv (ctx : reader_ctx_t) (priv : ram_priv)
    (es : List EFI_MEMORY_DESCRIPTOR)
    (h : len_inv { ctx with cur := 0, len := 0 } priv) :
    len_inv (ram_build_chunks ctx priv es).2.1
      (ram_build_chunks ctx priv es).2.2.1 := by
  simp only [ram_build_chunks]
  have hl := ram_build_loop_len_inv es { ctx with cur := 0, len := 0 } priv 0 h
  by_cases he : EFI_ERROR
      (ram_build_loop { ctx with cur := 0, len := 0 } priv 0 es).status = true
  · rw [if_pos he]
    exact hl
  · rw [if_neg he]
    by_cases h1 : (ram_build_loop { ctx with cur := 0, len := 0 } priv 0 es).priv.end_ ≠ 0 ∧
        (ram_build_loop { ctx with cur := 0, len := 0 } priv 0 es).completed = true
    · rw [if_pos h1]
      exact hl
    · rw [if_neg h1]
      by_cases h2 : (ram_build_loop { ctx with cur := 0, len := 0 } priv 0 es).ctx.len = 0
      · rw [if_pos h2]
        exact hl
      · rw [if_neg h2]
        exact hl

/-! ## Inversion of a successful ram_open -/

/-- A successful `ram_open` is assembled from a successful chunk-plan build
over the pre-build private state (parsed window, initialised header, sorted
map). -/
theorem ram_open_success_shape (g : ram_priv) (args : List Nat)
    (m : List EFI_MEMORY_DESCRIPTOR) (h : (ram_open g args m).1 = EFI_SUCCESS) :
    args.length ≤ 2 ∧ g.is_in_used = false ∧
    (ram_build_chunks ⟨0, 0⟩ (ram_open_priv0 args m)
        (ram_open_priv0 args m).memmap).1 = EFI_SUCCESS ∧
    ram_open g args m =
      (EFI_SUCCESS,
       { (ram_build_chunks ⟨0, 0⟩ (ram_open_priv0 args m)
            (ram_open_priv0 args m).memmap).2.1 with
         len := w64 ((ram_build_chunks ⟨0, 0⟩ (ram_open_priv0 args m)
            (ram_open_priv0 args m).memmap).2.1.len + sizeof_sparse_header) },
       (ram_build_chunks ⟨0, 0⟩ (ram_open_priv0 args m)
          (ram_open_priv0 args m).memmap).2.2.1) := by
  simp only [ram_open] at h ⊢
  by_cases h2 : args.length > 2
  · rw [if_pos h2] at h
    simp at h
  · rw [if_neg h2] at h ⊢
    by_cases hf : g.is_in_used = true
    · rw [if_pos hf] at h
      simp at h
    · rw [if_neg hf] at h ⊢
      by_cases hal : (ram_open_parsed args).start % EFI_PAGE_SIZE ≠ 0 ∨
          (ram_open_parsed args).end_ % EFI_PAGE_SIZE ≠ 0
      · rw [if_pos hal] at h
        simp at h
      · rw [if_neg hal] at h ⊢
        rcases hb : ram_build_chunks ⟨0, 0⟩ (ram_open_priv0 args m)
            (ram_open_priv0 args m).memmap with ⟨st, ctx1, priv1, fr⟩
        rw [hb] at h
        dsimp only at h ⊢
        by_cases he : EFI_ERROR st = true
        · rw [if_pos he] at h
          simp only [EFI_ERROR, decide_eq_true_eq] at he
          exact absurd h he
        · rw [if_neg he] at h ⊢
          simp only [EFI_ERROR, decide_eq_true_eq, Decidable.not_not] at he
          refine ⟨by omega, by simpa using hf, he, rfl⟩

/-! ## Generic preservation of private-state predicates along the build -/

/-- Any predicate preserved by `ram_add_chunk` is preserved by
`ram_build_desc`. -/
theorem ram_build_desc_pres (P : ram_priv → Prop)
    (hP : ∀ ctx priv ty size, P priv → P (ram_add_chunk ctx priv ty size).2.2)
    (ctx : reader_ctx_t) (priv : ram_priv) (prev_end : Nat)
    (entry : EFI_MEMORY_DESCRIPTOR) (entry_len entry_end : Nat) (h : P priv) :
    P (ram_build_desc ctx priv prev_end entry entry_len entry_end).priv := by
  unfold ram_build_desc
  rcases hA : ram_add_chunk ctx priv (desc_type entry)
      (desc_length priv entry entry_len entry_end) with ⟨stA, ctxA, privA⟩
  have h' := hP ctx priv (desc_type entry)
      (desc_length priv entry entry_len entry_end) h
  rw [hA] at h'
  dsimp only
  by_cases he : EFI_ERROR stA = true
  · rw [if_pos he]
    exact h'
  · rw [if_neg he]
    by_cases hb : privA.end_ ≠ 0 ∧ privA.end_ ≤ entry_end
    · rw [if_pos hb]
      exact h'
    · rw [if_neg hb]
      exact h'

/-- Any predicate preserved by `ram_add_chunk` is preserved by
`ram_build_step`. -/
theorem ram_build_step_pres (P : ram_priv → Prop)
    (hP : ∀ ctx priv ty size, P priv → P (ram_add_chunk ctx priv ty size).2.2)
    (ctx : reader_ctx_t) (priv : ram_priv) (prev_end : Nat)
    (entry : EFI_MEMORY_DESCRIPTOR) (h : P priv) :
    P (ram_build_step ctx priv prev_end entry).priv := by
  simp only [ram_build_step]
  by_cases hskip : priv.start ≥
      w64 (entry.PhysicalStart + w64 (entry.NumberOfPages * EFI_PAGE_SIZE))
  · rw [if_pos hskip]
    exact h
  · rw [if_neg hskip]
    by_cases hne : prev_end ≠ entry.PhysicalStart
    · rw [if_pos hne]
      by_cases hgt : prev_end > entry.PhysicalStart
      · rw [if_pos hgt]
        exact h
      · rw [if_neg hgt]
        rcases hA : ram_add_chunk ctx priv CHUNK_TYPE_DONT_CARE
            (hole_length priv prev_end entry) with ⟨stA, ctxA, privA⟩
        have h' := hP ctx priv CHUNK_TYPE_DONT_CARE
            (hole_length priv prev_end entry) h
        rw [hA] at h'
        dsimp only
        by_cases he : EFI_ERROR stA = true
        · rw [if_pos he]
          exact h'
        · rw [if_neg he]
          by_cases hb : privA.end_ ≠ 0 ∧ privA.end_ < entry.PhysicalStart
          · rw [if_pos hb]
            exact h'
          · rw [if_neg hb]
            exact ram_build_desc_pres P hP ctxA privA prev_end entry _ _ h'
    · rw [if_neg hne]
      exact ram_build_desc_pres P hP ctx priv prev_end entry _ _ h

/-- Any predicate preserved by `ram_add_chunk` is preserved by the build
loop. -/
theorem ram_build_loop_pres (P : ram_priv → Prop)
    (hP : ∀ ctx priv ty size, P priv → P (ram_add_chunk ctx priv ty size).2.2)
    (es : List EFI_MEMORY_DESCRIPTOR) :
    ∀ ctx priv prev_end, P priv →
      P (ram_build_loop ctx priv prev_end es).priv := by
  induction es with
  | nil =>
    intro ctx priv prev h
    exact h
  | cons e rest ih =>
    intro ctx priv prev h
    rw [ram_build_loop]
    by_cases hc : (ram_build_step ctx priv prev e).cont = true
    · rw [if_pos hc]
      exact ih _ _ _ (ram_build_step_pres P hP ctx priv prev e h)
    · rw [if_neg hc]
      exact ram_build_step_pres P hP ctx priv prev e h

/-- Any predicate preserved by `ram_add_chunk` and stable under setting the
window end is preserved by `ram_build_chunks`. -/
theorem ram_build_chunks_pres (P : ram_priv → Prop)
    (hP : ∀ ctx priv ty size, P priv → P (ram_add_chunk ctx priv ty size).2.2)
    (hE : ∀ priv x, P priv → P { priv with end_ := x })
    (ctx : reader_ctx_t) (priv : ram_priv)
    (es : List EFI_MEMORY_DESCRIPTOR) (h : P priv) :
    P (ram_build_chunks ctx priv es).2.2.1 := by
  simp only [ram_build_chunks]
  have hl := ram_build_loop_pres P hP es { ctx with cur := 0, len := 0 } priv 0 h
  by_cases he : EFI_ERROR
      (ram_build_loop { ctx with cur := 0, len := 0 } priv 0 es).status = true
  · rw [if_pos he]
    exact hl
  · rw [if_neg he]
    by_cases h1 : (ram_build_loop { ctx with cur := 0, len := 0 } priv 0 es).priv.end_ ≠ 0 ∧
        (ram_build_loop { ctx with cur := 0, len := 0 } priv 0 es).completed = true
    · rw [if_pos h1]
      exact hl
    · rw [if_neg h1]
      by_cases h2 : (ram_build_loop { ctx with cur := 0, len := 0 } priv 0 es).ctx.len = 0
      · rw [if_pos h2]
        exact hl
      · rw [if_neg h2]
        exact hE _ _ hl

/-- `ram_add_chunk` keeps every planned size an exact page-multiple. -/
theorem ram_add_chunk_aligned (ctx : reader_ctx_t) (priv : ram_priv)
    (ty size : Nat) (h : ∀ p ∈ priv.gsizes, p.2 % EFI_PAGE_SIZE = 0) :
    ∀ p ∈ (ram_add_chunk ctx priv ty size).2.2.gsizes,
      p.2 % EFI_PAGE_SIZE = 0 := by
  by_cases h1 : size % EFI_PAGE_SIZE ≠ 0
  · rw [ram_add_chunk, if_pos h1]
    exact h
  · by_cases h2 : priv.chunk_nb = MAX_MEMORY_REGION_NB
    · rw [ram_add_chunk, if_neg h1, if_pos h2]
      exact h
    · push_neg at h1
      rw [ram_add_chunk_eq ctx priv ty size h1 h2]
      intro p hp
      simp only [List.mem_append, List.mem_singleton] at hp
      rcases hp with hp | hp
      · exact h p hp
      · rw [hp]
        exact h1

/-! ## The memory-map sort permutes its input -/

theorem bubble_step_perm (a : EFI_MEMORY_DESCRIPTOR)
    (l : List EFI_MEMORY_DESCRIPTOR) :
    List.Perm (bubble_step a l) (a :: l) := by
  induction l generalizing a with
  | nil => exact List.Perm.refl _
  | cons b t ih =>
    rw [bubble_step]
    by_cases hc : a.PhysicalStart > b.PhysicalStart
    · rw [if_pos hc]
      exact ((ih a).cons b).trans (List.Perm.swap a b t)
    · rw [if_neg hc]
      exact (ih b).cons a

theorem bubble_pass_perm (l : List EFI_MEMORY_DESCRIPTOR) :
    List.Perm (bubble_pass l) l := by
  cases l with
  | nil => exact List.Perm.refl _
  | cons a t => exact bubble_step_perm a t

theorem sort_memory_map_perm (l : List EFI_MEMORY_DESCRIPTOR) :
    List.Perm (sort_memory_map l) l := by
  unfold sort_memory_map
  generalize l.length = n
  induction n with
  | zero => exact List.Perm.refl l
  | succ k ih =>
    rw [Function.iterate_succ_apply']
    exact (bubble_pass_perm _).trans ih

theorem mem_sort_memory_map {e : EFI_MEMORY_DESCRIPTOR}
    {l : List EFI_MEMORY_DESCRIPTOR} :
    e ∈ sort_memory_map l ↔ e ∈ l :=
  (sort_memory_map_perm l).mem_iff

theorem sort_memory_map_length (l : List EFI_MEMORY_DESCRIPTOR) :
    (sort_memory_map l).length = l.length :=
  (sort_memory_map_perm l).length_eq

/-! ## Values of the clipped chunk lengths for a window starting at 0 -/

theorem lt_W64_of_lt_two44 {a : Nat} (h : a < 2 ^ 44) : a < W64 :=
  lt_trans h (by norm_num [W64_eq])

/-- For `start = 0`, the hole length reduces to the gap clipped only at the
window end. -/
theorem hole_length_start0 (priv : ram_priv) (prev_end : Nat)
    (entry : EFI_MEMORY_DESCRIPTOR) (hstart : priv.start = 0)
    (hprev : prev_end ≤ entry.PhysicalStart)
    (hps : entry.PhysicalStart < 2 ^ 44)
    (hend : priv.end_ = 0 ∨ prev_end ≤ priv.end_) :
    hole_length priv prev_end entry =
      if priv.end_ ≠ 0 ∧ entry.PhysicalStart > priv.end_
      then priv.end_ - prev_end
      else entry.PhysicalStart - prev_end := by
  simp only [hole_length]
  rw [if_neg (show ¬(priv.start > prev_end ∧ priv.start < entry.PhysicalStart) by
        rw [hstart]; omega),
      sub64_eq_of_le hprev (lt_W64_of_lt_two44 hps)]
  by_cases hE : priv.end_ ≠ 0 ∧ entry.PhysicalStart > priv.end_
  · rw [if_pos hE, if_pos hE]
    have hpe : prev_end ≤ priv.end_ := by
      rcases hend with h | h
      · exact absurd h hE.1
      · exact h
    rw [sub64_eq_of_le (by omega) (lt_W64_of_lt_two44 hps),
        sub64_eq_of_le (by omega) (by apply lt_W64_of_lt_two44; omega)]
    omega
  · rw [if_neg hE, if_neg hE]

/-- For `start = 0`, the descriptor length reduces to the extent clipped only
at the window end. -/
theorem desc_length_start0 (priv : ram_priv) (entry : EFI_MEMORY_DESCRIPTOR)
    (hstart : priv.start = 0)
    (he : entry.PhysicalStart + entry.NumberOfPages * EFI_PAGE_SIZE < 2 ^ 44)
    (hend : priv.end_ = 0 ∨ entry.PhysicalStart ≤ priv.end_) :
    desc_length priv entry (entry.NumberOfPages * EFI_PAGE_SIZE)
        (entry.PhysicalStart + entry.NumberOfPages * EFI_PAGE_SIZE) =
      if priv.end_ ≠ 0 ∧
          priv.end_ < entry.PhysicalStart + entry.NumberOfPages * EFI_PAGE_SIZE
      then priv.end_ - entry.PhysicalStart
      else entry.NumberOfPages * EFI_PAGE_SIZE := by
  simp only [desc_length]
  rw [if_neg (show ¬(priv.start > entry.PhysicalStart ∧
        priv.start < entry.PhysicalStart + entry.NumberOfPages * EFI_PAGE_SIZE) by
        rw [hstart]; omega)]
  by_cases hE : priv.end_ ≠ 0 ∧
      priv.end_ < entry.PhysicalStart + entry.NumberOfPages * EFI_PAGE_SIZE
  · rw [if_pos hE, if_pos hE]
    have hpe : entry.PhysicalStart ≤ priv.end_ := by
      rcases hend with h | h
      · exact absurd h hE.1
      · exact h
    rw [sub64_eq_of_le (by omega) (lt_W64_of_lt_two44 he),
        sub64_eq_of_le (by omega) (by apply lt_W64_of_lt_two44; omega)]
    omega
  · rw [if_neg hE, if_neg hE]

/-! ## Inversion of a successful ram_build_chunks -/

theorem ram_build_chunks_success_shape (ctx : reader_ctx_t) (priv : ram_priv)
    (es : List EFI_MEMORY_DESCRIPTOR)
    (h : (ram_build_chunks ctx priv es).1 = EFI_SUCCESS) :
    (ram_build_loop { ctx with cur := 0, len := 0 } priv 0 es).status =
      EFI_SUCCESS ∧
    ¬((ram_build_loop { ctx with cur := 0, len := 0 } priv 0 es).priv.end_ ≠ 0 ∧
      (ram_build_loop { ctx with cur := 0, len := 0 } priv 0 es).completed = true) ∧
    (ram_build_chunks ctx priv es).2.2.1 =
      { (ram_build_loop { ctx with cur := 0, len := 0 } priv 0 es).priv with
        end_ := if (ram_build_loop { ctx with cur := 0, len := 0 } priv 0 es).priv.end_ = 0
                then (ram_build_loop { ctx with cur := 0, len := 0 } priv 0 es).prev_end
                else (ram_build_loop { ctx with cur := 0, len := 0 } priv 0 es).priv.end_ } := by
  simp only [ram_build_chunks] at h ⊢
  by_cases he : EFI_ERROR
      (ram_build_loop { ctx with cur := 0, len := 0 } priv 0 es).status = true
  · rw [if_pos he] at h
    simp only [EFI_ERROR, decide_eq_true_eq] at he
    exact absurd h he
  · rw [if_neg he] at h ⊢
    simp only [EFI_ERROR, decide_eq_true_eq, Decidable.not_not] at he
    by_cases h1 : (ram_build_loop { ctx with cur := 0, len := 0 } priv 0 es).priv.end_ ≠ 0 ∧
        (ram_build_loop { ctx with cur := 0, len := 0 } priv 0 es).completed = true
    · rw [if_pos h1] at h
      simp at h
    · rw [if_neg h1] at h ⊢
      by_cases h2 : (ram_build_loop { ctx with cur := 0, len := 0 } priv 0 es).ctx.len = 0
      · rw [if_pos h2] at h
        simp at h
      · rw [if_neg h2]
        exact ⟨he, h1, rfl⟩

/-! ## The coverage invariant (windows starting at 0) through the build -/

theorem sizes_ok_append (gs : List (Nat × Nat)) (p : Nat × Nat)
    (h : sizes_ok gs) (h2 : p.2 < 2 ^ 44) (h3 : p.2 % EFI_PAGE_SIZE = 0) :
    sizes_ok (gs ++ [p]) := by
  intro q hq
  rcases List.mem_append.1 hq with hh | hh
  · exact h q hh
  · have hqp := List.mem_singleton.1 hh
    subst hqp
    exact ⟨h2, h3⟩

theorem chunks_match_of_append {cs : List chunk_header} {gs : List (Nat × Nat)}
    (p : Nat × Nat) (h : cs = gs.map chunk_of_size) :
    cs ++ [chunk_of_size p] = (gs ++ [p]).map chunk_of_size := by
  simp [h]

/-- One descriptor chunk under the coverage invariant (window start 0): on
continuation the invariant advances to the descriptor end; on a break the
planned sizes sum exactly to the window end. -/
theorem ram_build_desc_inv1 (ctx : reader_ctx_t) (priv : ram_priv)
    (prev_end : Nat) (entry : EFI_MEMORY_DESCRIPTOR) (entry_len entry_end : Nat)
    (hel : entry_len = entry.NumberOfPages * EFI_PAGE_SIZE)
    (hee : entry_end = entry.PhysicalStart + entry_len)
    (he : entry_end < 2 ^ 44)
    (hstart : priv.start = 0)
    (hsum : sum_sizes priv.gsizes = entry.PhysicalStart)
    (hend : priv.end_ = 0 ∨ (entry.PhysicalStart ≤ priv.end_ ∧ priv.end_ < 2 ^ 44))
    (hok : sizes_ok priv.gsizes) (hmatch : chunks_match priv) :
    ((ram_build_desc ctx priv prev_end entry entry_len entry_end).cont = true →
      inv1 (ram_build_desc ctx priv prev_end entry entry_len entry_end).priv
        (ram_build_desc ctx priv prev_end entry entry_len entry_end).prev_end ∧
      (ram_build_desc ctx priv prev_end entry entry_len entry_end).prev_end =
        entry_end) ∧
    ((ram_build_desc ctx priv prev_end entry entry_len entry_end).cont = false →
     (ram_build_desc ctx priv prev_end entry entry_len entry_end).status =
       EFI_SUCCESS →
      priv.end_ ≠ 0 ∧
      sum_sizes
        (ram_build_desc ctx priv prev_end entry entry_len entry_end).priv.gsizes =
        priv.end_ ∧
      sizes_ok
        (ram_build_desc ctx priv prev_end entry entry_len entry_end).priv.gsizes ∧
      chunks_match
        (ram_build_desc ctx priv prev_end entry entry_len entry_end).priv ∧
      (ram_build_desc ctx priv prev_end entry entry_len entry_end).priv.end_ =
        priv.end_) := by
  subst hel
  subst hee
  have hL := desc_length_start0 priv entry hstart he
    (by rcases hend with h | h
        · exact Or.inl h
        · exact Or.inr h.1)
  unfold ram_build_desc
  rcases hA : ram_add_chunk ctx priv (desc_type entry)
      (desc_length priv entry (entry.NumberOfPages * EFI_PAGE_SIZE)
        (entry.PhysicalStart + entry.NumberOfPages * EFI_PAGE_SIZE)) with
    ⟨stA, ctxA, privA⟩
  dsimp only
  by_cases heA : EFI_ERROR stA = true
  · rw [if_pos heA]
    simp only [EFI_ERROR, decide_eq_true_eq] at heA
    exact ⟨fun hc => absurd hc (by simp), fun _ hs => absurd hs heA⟩
  · simp only [EFI_ERROR, decide_eq_true_eq, Decidable.not_not] at heA
    subst heA
    have hg := ram_add_chunk_success ctx priv _ _ (by rw [hA])
    rw [ram_add_chunk_eq ctx priv _ _ hg.1 hg.2] at hA
    simp only [Prod.mk.injEq, true_and] at hA
    obtain ⟨hA2, hA3⟩ := hA
    subst hA3
    rw [if_neg (by decide)]
    dsimp only
    have hLlt : desc_length priv entry (entry.NumberOfPages * EFI_PAGE_SIZE)
        (entry.PhysicalStart + entry.NumberOfPages * EFI_PAGE_SIZE) < 2 ^ 44 := by
      rw [hL]
      by_cases hclip : priv.end_ ≠ 0 ∧
          priv.end_ < entry.PhysicalStart + entry.NumberOfPages * EFI_PAGE_SIZE
      · rw [if_pos hclip]
        rcases hend with h | h
        · exact absurd h hclip.1
        · omega
      · rw [if_neg hclip]
        omega
    by_cases hbrk : priv.end_ ≠ 0 ∧
        priv.end_ ≤ entry.PhysicalStart + entry.NumberOfPages * EFI_PAGE_SIZE
    · rw [if_pos hbrk]
      dsimp only
      refine ⟨fun hc => absurd hc (by simp), fun _ _ => ?_⟩
      refine ⟨hbrk.1, ?_, ?_, ?_, rfl⟩
      · show sum_sizes (priv.gsizes ++ [(desc_type entry,
          desc_length priv entry (entry.NumberOfPages * EFI_PAGE_SIZE)
            (entry.PhysicalStart + entry.NumberOfPages * EFI_PAGE_SIZE))]) = priv.end_
        rw [sum_sizes_append, hsum, hL]
        by_cases hclip : priv.end_ ≠ 0 ∧
            priv.end_ < entry.PhysicalStart + entry.NumberOfPages * EFI_PAGE_SIZE
        · rw [if_pos hclip]
          rcases hend with h | h
          · exact absurd h hclip.1
          · omega
        · rw [if_neg hclip]
          rcases hend with h | h
          · exact absurd h hbrk.1
          · omega
      · exact sizes_ok_append _ _ hok hLlt hg.1
      · exact chunks_match_of_append _ hmatch
    · rw [if_neg hbrk]
      dsimp only
      refine ⟨fun _ => ⟨?_, rfl⟩, fun hc => absurd hc (by simp)⟩
      have hnoclip : ¬(priv.end_ ≠ 0 ∧
          priv.end_ < entry.PhysicalStart + entry.NumberOfPages * EFI_PAGE_SIZE) := by
        intro hc
        exact hbrk ⟨hc.1, by omega⟩
      refine ⟨hstart, ?_, he, ?_, ?_, ?_⟩
      · show sum_sizes (priv.gsizes ++ [(desc_type entry,
          desc_length priv entry (entry.NumberOfPages * EFI_PAGE_SIZE)
            (entry.PhysicalStart + entry.NumberOfPages * EFI_PAGE_SIZE))]) =
          entry.PhysicalStart + entry.NumberOfPages * EFI_PAGE_SIZE
        rw [sum_sizes_append, hsum, hL, if_neg hnoclip]
      · show priv.end_ = 0 ∨
          (entry.PhysicalStart + entry.NumberOfPages * EFI_PAGE_SIZE ≤ priv.end_ ∧
           priv.end_ < 2 ^ 44)
        by_cases hz : priv.end_ = 0
        · exact Or.inl hz
        · refine Or.inr ⟨?_, ?_⟩
          · by_contra hlt
            exact hbrk ⟨hz, by omega⟩
          · rcases hend with h | h
            · exact absurd h hz
            · exact h.2
      · exact sizes_ok_append _ _ hok hLlt hg.1
      · exact chunks_match_of_append _ hmatch

/-- One walk step under the coverage invariant (window start 0). -/
theorem ram_build_step_inv1 (ctx : reader_ctx_t) (priv : ram_priv)
    (prev_end : Nat) (entry : EFI_MEMORY_DESCRIPTOR)
    (he : 0 < entry.NumberOfPages ∧
          entry.PhysicalStart + entry.NumberOfPages * EFI_PAGE_SIZE < 2 ^ 44)
    (hinv : inv1 priv prev_end) :
    ((ram_build_step ctx priv prev_end entry).cont = true →
      inv1 (ram_build_step ctx priv prev_end entry).priv
        (ram_build_step ctx priv prev_end entry).prev_end) ∧
    ((ram_build_step ctx priv prev_end entry).cont = false →
     (ram_build_step ctx priv prev_end entry).status = EFI_SUCCESS →
      priv.end_ ≠ 0 ∧
      sum_sizes (ram_build_step ctx priv prev_end entry).priv.gsizes = priv.end_ ∧
      sizes_ok (ram_build_step ctx priv prev_end entry).priv.gsizes ∧
      chunks_match (ram_build_step ctx priv prev_end entry).priv ∧
      (ram_build_step ctx priv prev_end entry).priv.end_ = priv.end_) := by
  obtain ⟨hstart, hsum, hprev44, hend, hok, hmatch⟩ := hinv
  have hpos : 0 < entry.NumberOfPages * EFI_PAGE_SIZE :=
    Nat.mul_pos he.1 (by norm_num [EFI_PAGE_SIZE])
  have hel : w64 (entry.NumberOfPages * EFI_PAGE_SIZE) =
      entry.NumberOfPages * EFI_PAGE_SIZE :=
    w64_eq_of_lt (lt_W64_of_lt_two44 (by omega))
  have hee : w64 (entry.PhysicalStart + entry.NumberOfPages * EFI_PAGE_SIZE) =
      entry.PhysicalStart + entry.NumberOfPages * EFI_PAGE_SIZE :=
    w64_eq_of_lt (lt_W64_of_lt_two44 he.2)
  simp only [ram_build_step, hel, hee]
  rw [if_neg (show ¬(priv.start ≥
      entry.PhysicalStart + entry.NumberOfPages * EFI_PAGE_SIZE) by
    rw [hstart]; omega)]
  by_cases hne : prev_end ≠ entry.PhysicalStart
  · rw [if_pos hne]
    by_cases hgt : prev_end > entry.PhysicalStart
    · rw [if_pos hgt]
      dsimp only
      exact ⟨fun hc => absurd hc (by simp), fun _ hs => absurd hs (by decide)⟩
    · rw [if_neg hgt]
      have hple : prev_end ≤ entry.PhysicalStart := by omega
      have hps44 : entry.PhysicalStart < 2 ^ 44 := by omega
      have hHL := hole_length_start0 priv prev_end entry hstart hple hps44
        (by rcases hend with h | h
            · exact Or.inl h
            · exact Or.inr h.1)
      rcases hA : ram_add_chunk ctx priv CHUNK_TYPE_DONT_CARE
          (hole_length priv prev_end entry) with ⟨stA, ctxA, privA⟩
      dsimp only
      by_cases heA : EFI_ERROR stA = true
      · rw [if_pos heA]
        simp only [EFI_ERROR, decide_eq_true_eq] at heA
        exact ⟨fun hc => absurd hc (by simp), fun _ hs => absurd hs heA⟩
      · simp only [EFI_ERROR, decide_eq_true_eq, Decidable.not_not] at heA
        subst heA
        have hg := ram_add_chunk_success ctx priv _ _ (by rw [hA])
        rw [ram_add_chunk_eq ctx priv _ _ hg.1 hg.2] at hA
        simp only [Prod.mk.injEq, true_and] at hA
        obtain ⟨hA2, hA3⟩ := hA
        have hstartA : privA.start = 0 := by
          rw [← hA3]
          exact hstart
        have hendA : privA.end_ = priv.end_ := by
          rw [← hA3]
        have hHLlt : hole_length priv prev_end entry < 2 ^ 44 := by
          rw [hHL]
          by_cases hclip : priv.end_ ≠ 0 ∧ entry.PhysicalStart > priv.end_
          · rw [if_pos hclip]
            rcases hend with h | h
            · exact absurd h hclip.1
            · omega
          · rw [if_neg hclip]
            omega
        have hokA : sizes_ok privA.gsizes := by
          rw [← hA3]
          exact sizes_ok_append _ _ hok hHLlt hg.1
        have hmatchA : chunks_match privA := by
          rw [← hA3]
          exact chunks_match_of_append _ hmatch
        rw [if_neg (by decide), hendA]
        by_cases hbrk : priv.end_ ≠ 0 ∧ priv.end_ < entry.PhysicalStart
        · rw [if_pos hbrk]
          dsimp only
          refine ⟨fun hc => absurd hc (by simp), fun _ _ => ?_⟩
          refine ⟨hbrk.1, ?_, hokA, hmatchA, hendA⟩
          rw [← hA3]
          show sum_sizes (priv.gsizes ++
            [(CHUNK_TYPE_DONT_CARE, hole_length priv prev_end entry)]) = priv.end_
          rw [sum_sizes_append, hsum, hHL,
              if_pos (⟨hbrk.1, hbrk.2⟩ : priv.end_ ≠ 0 ∧
                entry.PhysicalStart > priv.end_)]
          rcases hend with h | h
          · exact absurd h hbrk.1
          · omega
        · rw [if_neg hbrk]
          have hsumA : sum_sizes privA.gsizes = entry.PhysicalStart := by
            rw [← hA3]
            show sum_sizes (priv.gsizes ++
              [(CHUNK_TYPE_DONT_CARE, hole_length priv prev_end entry)]) = _
            rw [sum_sizes_append, hsum, hHL,
                if_neg (show ¬(priv.end_ ≠ 0 ∧ entry.PhysicalStart > priv.end_)
                  from hbrk)]
            omega
          have hendA2 : privA.end_ = 0 ∨
              (entry.PhysicalStart ≤ privA.end_ ∧ privA.end_ < 2 ^ 44) := by
            rw [hendA]
            by_cases hz : priv.end_ = 0
            · exact Or.inl hz
            · refine Or.inr ⟨by omega, ?_⟩
              rcases hend with h | h
              · exact absurd h hz
              · exact h.2
          have hdesc := ram_build_desc_inv1 ctxA privA prev_end entry
            (entry.NumberOfPages * EFI_PAGE_SIZE)
            (entry.PhysicalStart + entry.NumberOfPages * EFI_PAGE_SIZE)
            rfl rfl he.2 hstartA hsumA hendA2 hokA hmatchA
          refine ⟨fun hc => (hdesc.1 hc).1, fun hc hs => ?_⟩
          obtain ⟨x1, x2, x3, x4, x5⟩ := hdesc.2 hc hs
          rw [hendA] at x1 x2
          exact ⟨x1, x2, x3, x4, x5.trans hendA⟩
  · rw [if_neg hne]
    push_neg at hne
    have hdesc := ram_build_desc_inv1 ctx priv prev_end entry
      (entry.NumberOfPages * EFI_PAGE_SIZE)
      (entry.PhysicalStart + entry.NumberOfPages * EFI_PAGE_SIZE)
      rfl rfl he.2 hstart (by rw [hsum, hne])
      (by rcases hend with h | h
          · exact Or.inl h
          · exact Or.inr ⟨by omega, h.2⟩)
      hok hmatch
    exact ⟨fun hc => (hdesc.1 hc).1, hdesc.2⟩

/-- The build loop under the coverage invariant (window start 0): on
completion the planned sizes sum to the final `prev_end`; on a break they sum
to the window end. -/
theorem ram_build_loop_inv1 (es : List EFI_MEMORY_DESCRIPTOR) :
    ∀ ctx priv prev_end, inv1 priv prev_end →
      (∀ e ∈ es, 0 < e.NumberOfPages ∧
        e.PhysicalStart + e.NumberOfPages * EFI_PAGE_SIZE < 2 ^ 44) →
      (ram_build_loop ctx priv prev_end es).status = EFI_SUCCESS →
      ((ram_build_loop ctx priv prev_end es).priv.end_ = priv.end_ ∧
       ((ram_build_loop ctx priv prev_end es).completed = true →
         sum_sizes (ram_build_loop ctx priv prev_end es).priv.gsizes =
           (ram_build_loop ctx priv prev_end es).prev_end ∧
         sizes_ok (ram_build_loop ctx priv prev_end es).priv.gsizes ∧
         chunks_match (ram_build_loop ctx priv prev_end es).priv) ∧
       ((ram_build_loop ctx priv prev_end es).completed = false →
         priv.end_ ≠ 0 ∧
         sum_sizes (ram_build_loop ctx priv prev_end es).priv.gsizes =
           priv.end_ ∧
         sizes_ok (ram_build_loop ctx priv prev_end es).priv.gsizes ∧
         chunks_match (ram_build_loop ctx priv prev_end es).priv)) := by
  induction es with
  | nil =>
    intro ctx priv prev hinv hes hs
    rw [ram_build_loop]
    exact ⟨rfl, fun _ => ⟨hinv.2.1, hinv.2.2.2.2.1, hinv.2.2.2.2.2⟩,
      fun hc => absurd hc (by simp)⟩
  | cons e rest ih =>
    intro ctx priv prev hinv hes hs
    have hstep := ram_build_step_inv1 ctx priv prev e (hes e (by simp)) hinv
    have hef : (ram_build_step ctx priv prev e).priv.end_ = priv.end_ :=
      ram_build_step_pres (fun pr => pr.end_ = priv.end_)
        (fun c p ty s hh => by
          show (ram_add_chunk c p ty s).2.2.end_ = priv.end_
          rw [(ram_add_chunk_frame c p ty s).2.1]
          exact hh)
        ctx priv prev e rfl
    rw [ram_build_loop] at hs ⊢
    by_cases hc : (ram_build_step ctx priv prev e).cont = true
    · rw [if_pos hc] at hs ⊢
      have hrest := ih (ram_build_step ctx priv prev e).ctx
        (ram_build_step ctx priv prev e).priv
        (ram_build_step ctx priv prev e).prev_end
        (hstep.1 hc) (fun x hx => hes x (by simp [hx])) hs
      refine ⟨hrest.1.trans hef, hrest.2.1, fun hcf => ?_⟩
      obtain ⟨y1, y2, y3, y4⟩ := hrest.2.2 hcf
      rw [hef] at y1 y2
      exact ⟨y1, y2, y3, y4⟩
    · rw [if_neg hc] at hs ⊢
      dsimp only at hs ⊢
      have hb := hstep.2 (by simpa using hc) hs
      exact ⟨hb.2.2.2.2, fun hcc => absurd hcc (by simp),
        fun _ => ⟨hb.1, hb.2.1, hb.2.2.1, hb.2.2.2.1⟩⟩

/-! ## C1 — chunk-plan coverage, amended -/

/-- **C1, amended.** For every firmware memory map (with positive,
`< 2^44`-bounded descriptors) and every accepted window **starting at 0**,
the chunk plan covers exactly `[start, end)` (with `end` the post-walk
`prev_end` when the `end == 0` sentinel was used): the chunks are laid out
consecutively from `start` in walk order by construction, and the planned
bytes — both as `block_count * P` over the stored chunk headers and as the
exact ghost sizes — sum to `end - start`.  For windows with `start > 0` the
claim fails: a hole below the start can be emitted as an extra chunk (see the
counterexample). -/
theorem ram_chunk_plan_coverage (g : ram_priv) (args : List Nat)
    (m : List EFI_MEMORY_DESCRIPTOR)
    (h0 : args.headD 0 = 0) (hL : args.getD 1 0 < 2 ^ 44)
    (hm : ∀ e ∈ m, 0 < e.NumberOfPages ∧
      e.PhysicalStart + e.NumberOfPages * EFI_PAGE_SIZE < 2 ^ 44)
    (h : (ram_open g args m).1 = EFI_SUCCESS) :
    cover_of (ram_open g args m).2.2.chunks =
      (ram_open g args m).2.2.end_ - (ram_open g args m).2.2.start ∧
    sum_sizes (ram_open g args m).2.2.gsizes =
      (ram_open g args m).2.2.end_ - (ram_open g args m).2.2.start := by
  obtain ⟨hargs, hflag, hbs, heq⟩ := ram_open_success_shape g args m h
  obtain ⟨hls, hnc, hshape⟩ := ram_build_chunks_success_shape ⟨0, 0⟩
    (ram_open_priv0 args m) (ram_open_priv0 args m).memmap hbs
  have hs0 : (ram_open_priv0 args m).start = 0 := h0
  have hEval : (ram_open_priv0 args m).end_ = 0 ∨
      (ram_open_priv0 args m).end_ < 2 ^ 44 := by
    by_cases hl2 : args.length = 2
    · right
      show (if args.length = 2 then w64 (args.headD 0 + args.getD 1 0) else 0) <
        2 ^ 44
      rw [if_pos hl2, h0, Nat.zero_add, w64_eq_of_lt (lt_W64_of_lt_two44 hL)]
      exact hL
    · left
      show (if args.length = 2 then w64 (args.headD 0 + args.getD 1 0) else 0) = 0
      rw [if_neg hl2]
  have hinv0 : inv1 (ram_open_priv0 args m) 0 := by
    refine ⟨hs0, rfl, by norm_num, ?_, ?_, rfl⟩
    · rcases hEval with hv | hv
      · exact Or.inl hv
      · exact Or.inr ⟨Nat.zero_le _, hv⟩
    · intro p hp
      exact absurd hp (List.not_mem_nil p)
  have hm2 : ∀ e ∈ (ram_open_priv0 args m).memmap, 0 < e.NumberOfPages ∧
      e.PhysicalStart + e.NumberOfPages * EFI_PAGE_SIZE < 2 ^ 44 :=
    fun e he => hm e (mem_sort_memory_map.1 he)
  have hloop := ram_build_loop_inv1 (ram_open_priv0 args m).memmap ⟨0, 0⟩
    (ram_open_priv0 args m) 0 hinv0 hm2 hls
  have hsf : (ram_build_loop ⟨0, 0⟩ (ram_open_priv0 args m) 0
      (ram_open_priv0 args m).memmap).priv.start = 0 :=
    ram_build_loop_pres (fun pr => pr.start = 0)
      (fun c p ty s hh => by
        show (ram_add_chunk c p ty s).2.2.start = 0
        rw [(ram_add_chunk_frame c p ty s).1]
        exact hh)
      (ram_open_priv0 args m).memmap ⟨0, 0⟩ (ram_open_priv0 args m) 0 hs0
  rw [heq]
  dsimp only
  rw [hshape]
  dsimp only
  rw [hsf, Nat.sub_zero]
  by_cases hz : (ram_build_loop ⟨0, 0⟩ (ram_open_priv0 args m) 0
      (ram_open_priv0 args m).memmap).priv.end_ = 0
  · have hcomp : (ram_build_loop ⟨0, 0⟩ (ram_open_priv0 args m) 0
        (ram_open_priv0 args m).memmap).completed = true := by
      by_cases hcc : (ram_build_loop ⟨0, 0⟩ (ram_open_priv0 args m) 0
          (ram_open_priv0 args m).memmap).completed = true
      · exact hcc
      · have hbf := hloop.2.2 (by simpa using hcc)
        rw [← hloop.1] at hbf
        exact absurd hz hbf.1
    obtain ⟨yS, yok, ymatch⟩ := hloop.2.1 hcomp
    rw [if_pos hz]
    constructor
    · rw [ymatch, cover_of_map_chunk_of_size _ yok]
      exact yS
    · exact yS
  · have hcf : (ram_build_loop ⟨0, 0⟩ (ram_open_priv0 args m) 0
        (ram_open_priv0 args m).memmap).completed = false := by
      by_cases hcc : (ram_build_loop ⟨0, 0⟩ (ram_open_priv0 args m) 0
          (ram_open_priv0 args m).memmap).completed = true
      · exact absurd ⟨hz, hcc⟩ hnc
      · simpa using hcc
    obtain ⟨y1, yS, yok, ymatch⟩ := hloop.2.2 hcf
    rw [if_neg hz]
    rw [← hloop.1] at yS
    constructor
    · rw [ymatch, cover_of_map_chunk_of_size _ yok]
      exact yS
    · exact yS

/-- **C1, amended, witness.** The full dump of the hole scenario covers
exactly `[0, 0xC000)`. -/
theorem ram_chunk_plan_coverage_witness :
    cover_of (ram_open g0 [] map_hole).2.2.chunks =
      (ram_open g0 [] map_hole).2.2.end_ - (ram_open g0 [] map_hole).2.2.start ∧
    sum_sizes (ram_open g0 [] map_hole).2.2.gsizes =
      (ram_open g0 [] map_hole).2.2.end_ - (ram_open g0 [] map_hole).2.2.start :=
  ram_chunk_plan_coverage g0 [] map_hole (by decide) (by decide)
    (by decide) (by decide)

/-! ## C7 — overlap rejection on the walked prefix -/

/-- For a full dump, a descriptor chunk either fails
`EFI_INVALID_PARAMETER` or continues to the descriptor end with one more
chunk. -/
theorem ram_build_desc_end0 (ctx : reader_ctx_t) (priv : ram_priv)
    (prev_end : Nat) (entry : EFI_MEMORY_DESCRIPTOR) (entry_len entry_end : Nat)
    (hend : priv.end_ = 0)
    (hcap : priv.chunk_nb + 1 ≤ MAX_MEMORY_REGION_NB) :
    ((ram_build_desc ctx priv prev_end entry entry_len entry_end).cont = false →
      (ram_build_desc ctx priv prev_end entry entry_len entry_end).status =
        EFI_INVALID_PARAMETER) ∧
    ((ram_build_desc ctx priv prev_end entry entry_len entry_end).cont = true →
      (ram_build_desc ctx priv prev_end entry entry_len entry_end).prev_end =
        entry_end ∧
      (ram_build_desc ctx priv prev_end entry entry_len entry_end).priv.chunk_nb ≤
        priv.chunk_nb + 1 ∧
      (ram_build_desc ctx priv prev_end entry entry_len entry_end).priv.start =
        priv.start ∧
      (ram_build_desc ctx priv prev_end entry entry_len entry_end).priv.end_ = 0) := by
  have hne : priv.chunk_nb ≠ MAX_MEMORY_REGION_NB := by
    simp only [MAX_MEMORY_REGION_NB] at hcap ⊢
    omega
  have hst := ram_add_chunk_status ctx priv (desc_type entry)
    (desc_length priv entry entry_len entry_end) hne
  unfold ram_build_desc
  rcases hB : ram_add_chunk ctx priv (desc_type entry)
      (desc_length priv entry entry_len entry_end) with ⟨stB, ctxB, privB⟩
  rw [hB] at hst
  dsimp only at hst ⊢
  by_cases heB : EFI_ERROR stB = true
  · rw [if_pos heB]
    simp only [EFI_ERROR, decide_eq_true_eq] at heB
    rcases hst with hS | hI
    · exact absurd hS heB
    · exact ⟨fun _ => hI, fun hc => absurd hc (by simp)⟩
  · simp only [EFI_ERROR, decide_eq_true_eq, Decidable.not_not] at heB
    subst heB
    have hg := ram_add_chunk_success ctx priv _ _ (by rw [hB])
    rw [ram_add_chunk_eq ctx priv _ _ hg.1 hg.2] at hB
    simp only [Prod.mk.injEq, true_and] at hB
    obtain ⟨hB2, hB3⟩ := hB
    have hendB : privB.end_ = 0 := by
      rw [← hB3]
      exact hend
    rw [if_neg (by decide), if_neg (fun hcc => hcc.1 hendB)]
    dsimp only
    refine ⟨fun hc => absurd hc (by simp), fun _ => ⟨rfl, ?_, ?_, hendB⟩⟩
    · rw [← hB3]
    · rw [← hB3]

/-- One full-dump walk step: it either fails `EFI_INVALID_PARAMETER` or
continues to the descriptor end adding at most two chunks — and it always
fails when the previous region end overlaps the descriptor start. -/
theorem ram_build_step_end0 (ctx : reader_ctx_t) (priv : ram_priv)
    (prev_end : Nat) (entry : EFI_MEMORY_DESCRIPTOR)
    (hstart : priv.start = 0) (hend : priv.end_ = 0)
    (he : 0 < entry.NumberOfPages ∧
          entry.PhysicalStart + entry.NumberOfPages * EFI_PAGE_SIZE < W64)
    (hcap : priv.chunk_nb + 2 ≤ MAX_MEMORY_REGION_NB) :
    ((ram_build_step ctx priv prev_end entry).cont = false →
      (ram_build_step ctx priv prev_end entry).status = EFI_INVALID_PARAMETER) ∧
    (prev_end > entry.PhysicalStart →
      (ram_build_step ctx priv prev_end entry).cont = false) ∧
    ((ram_build_step ctx priv prev_end entry).cont = true →
      (ram_build_step ctx priv prev_end entry).prev_end =
        entry.PhysicalStart + entry.NumberOfPages * EFI_PAGE_SIZE ∧
      (ram_build_step ctx priv prev_end entry).priv.chunk_nb ≤
        priv.chunk_nb + 2 ∧
      (ram_build_step ctx priv prev_end entry).priv.start = 0 ∧
      (ram_build_step ctx priv prev_end entry).priv.end_ = 0) := by
  have hpos : 0 < entry.NumberOfPages * EFI_PAGE_SIZE :=
    Nat.mul_pos he.1 (by norm_num [EFI_PAGE_SIZE])
  have hel : w64 (entry.NumberOfPages * EFI_PAGE_SIZE) =
      entry.NumberOfPages * EFI_PAGE_SIZE :=
    w64_eq_of_lt (by omega)
  have hee : w64 (entry.PhysicalStart + entry.NumberOfPages * EFI_PAGE_SIZE) =
      entry.PhysicalStart + entry.NumberOfPages * EFI_PAGE_SIZE :=
    w64_eq_of_lt he.2
  simp only [ram_build_step, hel, hee]
  rw [if_neg (show ¬(priv.start ≥
      entry.PhysicalStart + entry.NumberOfPages * EFI_PAGE_SIZE) by
    rw [hstart]; omega)]
  by_cases hne : prev_end ≠ entry.PhysicalStart
  · rw [if_pos hne]
    by_cases hgt : prev_end > entry.PhysicalStart
    · rw [if_pos hgt]
      exact ⟨fun _ => rfl, fun _ => rfl, fun hc => absurd hc (by simp)⟩
    · rw [if_neg hgt]
      have hneMax : priv.chunk_nb ≠ MAX_MEMORY_REGION_NB := by
        simp only [MAX_MEMORY_REGION_NB] at hcap ⊢
        omega
      have hst := ram_add_chunk_status ctx priv CHUNK_TYPE_DONT_CARE
        (hole_length priv prev_end entry) hneMax
      rcases hA : ram_add_chunk ctx priv CHUNK_TYPE_DONT_CARE
          (hole_length priv prev_end entry) with ⟨stA, ctxA, privA⟩
      rw [hA] at hst
      dsimp only at hst ⊢
      by_cases heA : EFI_ERROR stA = true
      · rw [if_pos heA]
        simp only [EFI_ERROR, decide_eq_true_eq] at heA
        rcases hst with hS | hI
        · exact absurd hS heA
        · exact ⟨fun _ => hI, fun _ => rfl, fun hc => absurd hc (by simp)⟩
      · simp only [EFI_ERROR, decide_eq_true_eq, Decidable.not_not] at heA
        subst heA
        have hg := ram_add_chunk_success ctx priv _ _ (by rw [hA])
        rw [ram_add_chunk_eq ctx priv _ _ hg.1 hg.2] at hA
        simp only [Prod.mk.injEq, true_and] at hA
        obtain ⟨hA2, hA3⟩ := hA
        have hendA : privA.end_ = 0 := by
          rw [← hA3]
          exact hend
        have hstartA : privA.start = 0 := by
          rw [← hA3]
          exact hstart
        have hnbA : privA.chunk_nb = priv.chunk_nb + 1 := by
          rw [← hA3]
        rw [if_neg (by decide), if_neg (fun hcc => hcc.1 hendA)]
        have hdesc := ram_build_desc_end0 ctxA privA prev_end entry
          (entry.NumberOfPages * EFI_PAGE_SIZE)
          (entry.PhysicalStart + entry.NumberOfPages * EFI_PAGE_SIZE)
          hendA (by rw [hnbA]; simp only [MAX_MEMORY_REGION_NB] at hcap ⊢; omega)
        refine ⟨hdesc.1, fun hgt' => absurd hgt' hgt, fun hc => ?_⟩
        obtain ⟨z1, z2, z3, z4⟩ := hdesc.2 hc
        exact ⟨z1, by omega, z3.trans hstartA, z4⟩
  · rw [if_neg hne]
    push_neg at hne
    have hdesc := ram_build_desc_end0 ctx priv prev_end entry
      (entry.NumberOfPages * EFI_PAGE_SIZE)
      (entry.PhysicalStart + entry.NumberOfPages * EFI_PAGE_SIZE)
      hend (by simp only [MAX_MEMORY_REGION_NB] at hcap ⊢; omega)
    refine ⟨hdesc.1, fun hgt' => absurd hgt' (by omega), fun hc => ?_⟩
    obtain ⟨z1, z2, z3, z4⟩ := hdesc.2 hc
    exact ⟨z1, by omega, z3.trans hstart, z4⟩

/-- The full-dump walk fails `EFI_INVALID_PARAMETER` whenever two adjacent
descriptors of its input overlap. -/
theorem ram_build_loop_overlap (es : List EFI_MEMORY_DESCRIPTOR) :
    ∀ ctx priv prev_end,
      priv.start = 0 → priv.end_ = 0 →
      (∀ e ∈ es, 0 < e.NumberOfPages ∧
        e.PhysicalStart + e.NumberOfPages * EFI_PAGE_SIZE < W64) →
      priv.chunk_nb + 2 * es.length ≤ MAX_MEMORY_REGION_NB →
      has_adj_overlap es = true →
      (ram_build_loop ctx priv prev_end es).status = EFI_INVALID_PARAMETER := by
  induction es with
  | nil =>
    intro ctx priv prev _ _ _ _ hov
    simp [has_adj_overlap] at hov
  | cons a rest ih =>
    intro ctx priv prev hstart hend hes hcap hov
    cases rest with
    | nil => simp [has_adj_overlap] at hov
    | cons b t =>
      have hstep := ram_build_step_end0 ctx priv prev a hstart hend
        (hes a (by simp))
        (by simp only [List.length_cons, MAX_MEMORY_REGION_NB] at hcap ⊢; omega)
      rw [ram_build_loop]
      by_cases hc : (ram_build_step ctx priv prev a).cont = true
      · rw [if_pos hc]
        obtain ⟨hpe, hnb, hs0, he0⟩ := hstep.2.2 hc
        by_cases hov1 : b.PhysicalStart <
            a.PhysicalStart + a.NumberOfPages * EFI_PAGE_SIZE
        · rw [ram_build_loop]
          have hstepb := ram_build_step_end0 (ram_build_step ctx priv prev a).ctx
            (ram_build_step ctx priv prev a).priv
            (ram_build_step ctx priv prev a).prev_end b hs0 he0
            (hes b (by simp))
            (by simp only [List.length_cons, MAX_MEMORY_REGION_NB] at hcap ⊢; omega)
          have hgtb : (ram_build_step ctx priv prev a).prev_end >
              b.PhysicalStart := by
            rw [hpe]
            omega
          have hcb := hstepb.2.1 hgtb
          rw [if_neg (by simp [hcb])]
          dsimp only
          exact hstepb.1 hcb
        · have hov2 : has_adj_overlap (b :: t) = true := by
            rw [has_adj_overlap] at hov
            simp only [Bool.or_eq_true, decide_eq_true_eq] at hov
            rcases hov with h | h
            · exact absurd h hov1
            · exact h
          exact ih _ _ _ hs0 he0 (fun x hx => hes x (by simp [hx]))
            (by simp only [List.length_cons, MAX_MEMORY_REGION_NB] at hcap ⊢; omega)
            hov2
      · rw [if_neg hc]
        dsimp only
        exact hstep.1 (by simpa using hc)

/-- **C7, amended.** Overlap detection applies to the part of the map the
walk actually visits: for a full dump (no window arguments) of a map whose
sorted form contains two adjacent overlapping descriptors (all descriptors
non-empty and below `2^64`, at most 128 of them so the chunk array cannot
overflow first), `ram_open` fails `EFI_INVALID_PARAMETER`.  When the overlap
lies beyond the requested window the walk stops before reaching it and the
open succeeds (see the counterexample). -/
theorem ram_open_overlap_invalid (g : ram_priv) (m : List EFI_MEMORY_DESCRIPTOR)
    (hflag : g.is_in_used = false)
    (hm : ∀ e ∈ m, 0 < e.NumberOfPages ∧
      e.PhysicalStart + e.NumberOfPages * EFI_PAGE_SIZE < W64)
    (hlen : m.length ≤ 128)
    (hov : has_adj_overlap (sort_memory_map m) = true) :
    (ram_open g [] m).1 = EFI_INVALID_PARAMETER := by
  have hbuild : (ram_build_chunks ⟨0, 0⟩ (ram_open_priv0 [] m)
      (ram_open_priv0 [] m).memmap).1 = EFI_INVALID_PARAMETER := by
    have hl := ram_build_loop_overlap (ram_open_priv0 [] m).memmap ⟨0, 0⟩
      (ram_open_priv0 [] m) 0 rfl rfl
      (fun e he => hm e (mem_sort_memory_map.1 he))
      (by show 0 + 2 * (sort_memory_map m).length ≤ MAX_MEMORY_REGION_NB
          rw [sort_memory_map_length]
          simp only [MAX_MEMORY_REGION_NB]
          omega)
      hov
    simp only [ram_build_chunks]
    rw [if_pos (by rw [hl]; decide)]
    exact hl
  simp only [ram_open]
  rw [if_neg (by simp), if_neg (by simp [hflag]), if_neg (by decide)]
  rcases hb : ram_build_chunks ⟨0, 0⟩ (ram_open_priv0 [] m)
      (ram_open_priv0 [] m).memmap with ⟨st, ctx1, priv1, fr⟩
  rw [hb] at hbuild
  dsimp only at hbuild ⊢
  subst hbuild
  rw [if_pos (by decide)]

/-- **C7, amended, witness.** The full dump of the immediately-overlapping
map is rejected. -/
theorem ram_open_overlap_invalid_witness :
    (ram_open g0 [] map_overlap).1 = EFI_INVALID_PARAMETER :=
  ram_open_overlap_invalid g0 map_overlap rfl (by decide) (by decide) (by decide)

/-! ## C5 — chunk sizes are page multiples, amended -/

/-- **C5, amended.** For every window and memory map accepted by `ram_open`,
every chunk emitted during plan building has a byte length that is a
multiple of the page size `P` — but the length is not always strictly
positive: when the window end coincides with the start of a descriptor
following a hole (or when `start == end`), a zero-length chunk is emitted. -/
theorem ram_chunk_page_multiple (g : ram_priv) (args : List Nat)
    (m : List EFI_MEMORY_DESCRIPTOR) (h : (ram_open g args m).1 = EFI_SUCCESS) :
    ∀ p ∈ (ram_open g args m).2.2.gsizes, p.2 % EFI_PAGE_SIZE = 0 := by
  obtain ⟨-, -, -, heq⟩ := ram_open_success_shape g args m h
  rw [heq]
  dsimp only
  apply ram_build_chunks_pres
    (fun pr => ∀ p ∈ pr.gsizes, p.2 % EFI_PAGE_SIZE = 0)
    ram_add_chunk_aligned (fun pr x hh => hh)
  intro p hp
  exact absurd hp (List.not_mem_nil p)

/-- **C5, amended, witness.** The first planned chunk of the hole scenario
has a page-multiple size. -/
theorem ram_chunk_page_multiple_witness :
    ((ram_open g0 [] map_hole).2.2.gsizes.headD (0, 0)).2 % EFI_PAGE_SIZE = 0 :=
  ram_chunk_page_multiple g0 [] map_hole (by decide) _ (by decide)

/-! ## C2 — header/length consistency, amended -/

/-- **C2, amended.** After every successful `ram_open`:
`header.total_chunks` equals the number of planned chunks exactly;
`header.total_blks` equals the sum of the stored chunk block counts reduced
into its 32-bit field; and `ctx.len` equals `sizeof(sparse header)` plus, for
every chunk, the chunk header size plus the exact RAW payload size (as 64-bit
arithmetic).  The claim's formulation via `sum(chunk.total_sz)` holds exactly
when every chunk's total size fits the 32-bit `total_sz` field. -/
theorem ram_header_consistency (g : ram_priv) (args : List Nat)
    (m : List EFI_MEMORY_DESCRIPTOR)
    (h : (ram_open g args m).1 = EFI_SUCCESS) :
    (ram_open g args m).2.1.len =
      w64 (sizeof_sparse_header + len_of (ram_open g args m).2.2.gsizes) ∧
    (ram_open g args m).2.2.sheader.total_chunks =
      (ram_open g args m).2.2.chunks.length ∧
    (ram_open g args m).2.2.sheader.total_blks =
      w32 (blks_of (ram_open g args m).2.2.chunks) := by
  obtain ⟨-, -, -, heq⟩ := ram_open_success_shape g args m h
  have hinv : len_inv
      (ram_build_chunks ⟨0, 0⟩ (ram_open_priv0 args m)
        (ram_open_priv0 args m).memmap).2.1
      (ram_build_chunks ⟨0, 0⟩ (ram_open_priv0 args m)
        (ram_open_priv0 args m).memmap).2.2.1 := by
    apply ram_build_chunks_len_inv
    exact ⟨rfl, rfl, rfl, rfl, Nat.zero_le _, rfl⟩
  rw [heq]
  dsimp only
  obtain ⟨hL, hTC, hCL, hNB, hMax, hTB⟩ := hinv
  refine ⟨?_, ?_, ?_⟩
  · rw [hL, w64_add_left]
    congr 1
    omega
  · rw [hTC, hCL]
  · exact hTB

/-- **C2, amended, witness.** The identities at the opened single-region
stream. -/
theorem ram_header_consistency_witness :
    (ram_open g0 [] map_single16).2.1.len =
      w64 (sizeof_sparse_header + len_of (ram_open g0 [] map_single16).2.2.gsizes) ∧
    (ram_open g0 [] map_single16).2.2.sheader.total_chunks =
      (ram_open g0 [] map_single16).2.2.chunks.length ∧
    (ram_open g0 [] map_single16).2.2.sheader.total_blks =
      w32 (blks_of (ram_open g0 [] map_single16).2.2.chunks) :=
  ram_header_consistency g0 [] map_single16 (by decide)

/-- **C4, witness.** A partition-adapter read mid-stream: at `cur = 5` of a
10-byte stream with 6 bytes still buffered, a 3-byte read returns at most
`min(3, 10 - 5)` bytes, advances the cursor by exactly that count, and the
count is nonzero since the stream is not exhausted. -/
theorem reader_read_progress_witness :
    (reader_read ⟨5, 10⟩ (adapter_state.part ⟨false, 2, 8, 0⟩ EFI_SUCCESS)
        3).2.2.1 ≤ min 3 (10 - 5) ∧
    (reader_read ⟨5, 10⟩ (adapter_state.part ⟨false, 2, 8, 0⟩ EFI_SUCCESS)
        3).2.2.2.1.cur =
      5 + (reader_read ⟨5, 10⟩ (adapter_state.part ⟨false, 2, 8, 0⟩ EFI_SUCCESS)
        3).2.2.1 ∧
    ((reader_read ⟨5, 10⟩ (adapter_state.part ⟨false, 2, 8, 0⟩ EFI_SUCCESS)
        3).2.2.1 = 0 ↔ (5 : Nat) = 10) :=
  (reader_read_progress ⟨5, 10⟩ (adapter_state.part ⟨false, 2, 8, 0⟩ EFI_SUCCESS)
    3 (by decide) (by decide) ⟨by decide, by decide, by decide⟩).1 (by decide)

end Reader
